import Mathlib

/-!
# coMPIla: distributed particle-bombardment kernel

Shallow embedding of `src/MPI/coMPIla.c` (function `main`, lines 153-298).

Conventions of the embedding.

* In the kernel (`bombardea_particula`, `relaja`, `compara`, `kernel`) the
  arithmetic on `float` is done exactly, in a linear ordered field `α` (the
  theorems that need square roots take `α = ℝ`), with one exception: the
  bound of the peak scan is an `int` stored in the `float` variable `fin`
  (lines 178, 280, 282), and `pico_local` rounds it as the code does.
* `f32` is the rounding of IEEE-754 binary32 (round to nearest, ties to even,
  no overflow or subnormals), a binary32 value being carried as the rational
  it denotes.  `bombardea_particula_f32` redoes the deposit loop of one
  particle (lines 199-223) with every operation rounded to binary32; it shows
  where rounding departs from the exact arithmetic of `bombardea_particula`.
* A C array (`miniLayer`, `layer_copy`, `raiz`) is a total map from the index
  to the cell.  Only indices inside the allocated block are meaningful; an
  access the C program would make outside the block has no counterpart here.
* A `for (k = a; k < b; k++)` loop is a left fold over `List.range' a (b - a)`.
* The worker count `size` and the rank are naturals (`0 ≤ rank < size`), and
  `layer_size` is a natural; `particion_reserva` redoes lines 153-167 on C
  `int`s with a 64-bit `size_t`: a request above `PTRDIFF_MAX` bytes makes
  `malloc` return `NULL`, and for the other requests the outcome of the two
  `malloc` calls is a parameter.
* `local[i].posicion` is declared without an initialiser (line 186); the value
  it holds before the scan is a parameter (`basura`) of the model.
* The halo received from a neighbour is the value the neighbour sent
  (reliable transport); `MPI_Reduce` with `MPI_MAXLOC` follows the MPI
  standard.
* The requests of the halo exchange are followed on the sequence of MPI calls
  of one worker in program order (`traza_halo`), with the request variables
  as state.
-/

namespace CoMPIla

/-! ## Partition (lines 153-156) -/

/-- Lines 153-155: `local_layer_size = layer_size / size`, plus one when
`rank < layer_size % size`. -/
def local_layer_size (layer_size size rank : Nat) : Nat :=
  if rank < layer_size % size then layer_size / size + 1 else layer_size / size

/-- Line 156: the global index of the first local cell. -/
def desplazamiento (layer_size size rank : Nat) : Nat :=
  if rank > layer_size % size then rank * (layer_size / size) + layer_size % size
  else rank * (layer_size / size) + rank

/-! ## Data -/

/-- A storm (lines 21-25): the particles `(posicion, energia en milesimas)`,
that is `posval[2*j]` and `posval[2*j+1]`. -/
abbrev Storm := List (Int × Int)

/-- The two buffers of a worker (lines 159-160). -/
structure Capas (α : Type) where
  miniLayer : Nat → α
  layer_copy : Nat → α

/-- A peak record (lines 182-186): `valor` and `posicion`. -/
structure Registro (α : Type) where
  valor : α
  posicion : Int

/-! ## IEEE-754 binary32 -/

/-- The integer nearest to `s`, the even one of the two when `s` lies halfway. -/
def redondea_par (s : ℚ) : Int :=
  if s - (⌊s⌋ : ℚ) < 1 / 2 then ⌊s⌋
  else if 1 / 2 < s - (⌊s⌋ : ℚ) then ⌊s⌋ + 1
  else if ⌊s⌋ % 2 = 0 then ⌊s⌋ else ⌊s⌋ + 1

/-- The binary32 value nearest to `q` (ties to even): with
`2^t ≤ |q| < 2^(t+1)` the 24-bit significand is `q / 2^(t-23)` rounded to an
integer. This is the conversion of an `int` to `float` and the rounding of
the result of a `float` operation. -/
def f32 (q : ℚ) : ℚ :=
  if q = 0 then 0
  else (redondea_par (q / 2 ^ (Int.log 2 |q| - 23)) : ℚ) * 2 ^ (Int.log 2 |q| - 23)

section Kernel

variable {α : Type} [LinearOrderedField α] [FloorRing α]

/-- Line 17: `UMBRAL 0.001f`. -/
def UMBRAL : α := 1 / 1000

/-- Lines 188-189: `raiz[i] = sqrtf(i + 1)`, the square root function being a
parameter. -/
def raiz (sqrtf : α → α) (i : Nat) : α := sqrtf (((i + 1 : Nat) : Int) : α)

/-- Line 199: `energia = (float)posval[j*2+1] / 1000`. -/
def energia (e_raw : Int) : α := (e_raw : α) / 1000

/-- Lines 204, 207-210: the first local index of the deposit loop. -/
def ini_bombardeo (posicion : Int) (energia : α) (desplazamiento local_layer_size : Nat) : α :=
  let ini : α := ((posicion + 1 : Int) : α) - 1000000 * (energia * energia)
  if ini < (((desplazamiento : Int) + local_layer_size - 1 : Int) : α) then
    (if ini ≥ ((desplazamiento : Int) : α) then ini - ((desplazamiento : Int) : α) else 0)
  else ((local_layer_size : Int) : α)

/-- Lines 205, 212-215: the bound of the deposit loop. -/
def fin_bombardeo (posicion : Int) (energia : α) (desplazamiento local_layer_size : Nat) : α :=
  let fin : α := ((posicion : Int) : α) + 1000000 * (energia * energia)
  if fin < (((desplazamiento : Int) + local_layer_size - 1 : Int) : α) then
    (if fin ≥ ((desplazamiento : Int) : α) then fin - ((desplazamiento : Int) : α) else 0)
  else ((local_layer_size : Int) : α)

/-- Lines 221-222: the body of the deposit loop at local index `k`. -/
def deposita (tabla : Nat → α) (umbral energia : α) (posicion : Int) (desplazamiento : Nat)
    (miniLayer : Nat → α) (k : Nat) : Nat → α :=
  if energia / tabla (Int.natAbs (posicion - ((k : Int) + desplazamiento))) ≥ umbral then
    Function.update miniLayer k
      (miniLayer k + energia / tabla (Int.natAbs (posicion - ((k : Int) + desplazamiento))))
  else miniLayer

/-- Lines 199-223: one particle.  `k = ini` truncates the non-negative `ini`,
and the loop runs while `k < fin`. -/
def bombardea_particula (tabla : Nat → α) (umbral : α) (desplazamiento local_layer_size : Nat)
    (miniLayer : Nat → α) (p : Int × Int) : Nat → α :=
  let e : α := energia p.2
  let posicion := p.1
  let ini := ini_bombardeo posicion e desplazamiento local_layer_size
  let fin := fin_bombardeo posicion e desplazamiento local_layer_size
  (List.range' (Int.toNat ⌊ini⌋) (Int.toNat ⌈fin⌉ - Int.toNat ⌊ini⌋)).foldl
    (deposita tabla umbral e posicion desplazamiento) miniLayer

/-- Lines 196-224: all the particles of a storm, in order. -/
def bombardeo (tabla : Nat → α) (umbral : α) (desplazamiento local_layer_size : Nat)
    (miniLayer : Nat → α) (s : Storm) : Nat → α :=
  s.foldl (bombardea_particula tabla umbral desplazamiento local_layer_size) miniLayer

/-- Lines 245-275: buffer swap and relaxation, with the halos `ini` and `fin`
(the values of lines 230-243 after the waits). -/
def relaja (rank size local_layer_size : Nat) (ini fin : α) (c : Capas α) : Capas α :=
  let layer_copy := c.miniLayer
  let m0 := c.layer_copy
  let m1 := Function.update m0 0 (layer_copy 0)
  let m2 := Function.update m1 (local_layer_size - 1) (layer_copy (local_layer_size - 1))
  let m3 :=
    if local_layer_size = 1 then
      (if rank ≠ 0 ∧ rank ≠ size - 1 then
        Function.update m2 0 ((ini + layer_copy 0 + fin) / 3)
      else m2)
    else
      let m := if rank ≠ size - 1 then
          Function.update m2 (local_layer_size - 1)
            ((layer_copy (local_layer_size - 1 - 1) + layer_copy (local_layer_size - 1) + fin) / 3)
        else m2
      if rank ≠ 0 then Function.update m 0 ((ini + layer_copy 0 + layer_copy 1) / 3) else m
  let m4 := (List.range' 1 (local_layer_size - 1 - 1)).foldl
    (fun m k => Function.update m k ((layer_copy (k - 1) + layer_copy k + layer_copy (k + 1)) / 3))
    m3
  { miniLayer := m4, layer_copy := layer_copy }

/-- Lines 285-289: the body of the peak scan at local index `k`. -/
def compara (desplazamiento : Nat) (miniLayer : Nat → α) (l : Registro α) (k : Nat) :
    Registro α :=
  if miniLayer k > l.valor then { valor := miniLayer k, posicion := (k : Int) + desplazamiento }
  else l

/-- Line 279: the first scanned index. -/
def ini_pico (rank : Nat) : Nat := if rank = 0 then 1 else 0

/-- Line 280: the `int` value assigned to the bound `fin` of the scan, before
its conversion to `float`. -/
def fin_pico (rank size local_layer_size : Nat) : Int :=
  if rank = size - 1 then (local_layer_size : Int) - 1 else local_layer_size

/-- Lines 279-290: the local peak scan; `basura` is what `local[i].posicion`
held before. The bound of line 280 is stored in the `float` variable `fin`
(line 178), and the loop of line 282 runs while `(float)k < fin`. -/
def pico_local (rank size local_layer_size desplazamiento : Nat) (miniLayer : Nat → α)
    (basura : Int) : Registro α :=
  ((List.range' (ini_pico rank)
      (Int.toNat (fin_pico rank size local_layer_size) - ini_pico rank)).takeWhile
    (fun k => decide (f32 ((k : Nat) : ℚ) <
      f32 ((fin_pico rank size local_layer_size : Int) : ℚ)))).foldl
    (compara desplazamiento miniLayer) { valor := 0, posicion := basura }

/-- The `MPI_MAXLOC` operator of the MPI standard: the greater value, and for
equal values the smaller index. -/
def maxloc (a b : Registro α) : Registro α :=
  if a.valor > b.valor then a
  else if a.valor < b.valor then b
  else { valor := a.valor, posicion := min a.posicion b.posicion }

/-- Line 293: `MPI_Reduce` with `MPI_MAXLOC` over the ranks `0 .. size-1`, for
one storm. -/
def reduce_maxloc (size : Nat) (loc : Nat → Registro α) : Registro α :=
  ((List.range' 1 (size - 1)).map loc).foldl maxloc (loc 0)

/-- Lines 230-243, 252-259: the halo a worker holds in `ini` after the wait:
the last cell of the left neighbour, or the `0` of line 230. -/
def halo_ini (layer_size size : Nat) (capa : Nat → Nat → α) (rank : Nat) : α :=
  if rank ≠ 0 then capa (rank - 1) (local_layer_size layer_size size (rank - 1) - 1) else 0

/-- Lines 230-243, 252-259: the halo a worker holds in `fin` after the wait:
the first cell of the right neighbour, or the `0` of line 231. -/
def halo_fin (size : Nat) (capa : Nat → Nat → α) (rank : Nat) : α :=
  if rank ≠ size - 1 then capa (rank + 1) 0 else 0

/-- Lines 196-224 on every worker. -/
def bombardeo_todos (tabla : Nat → α) (umbral : α) (layer_size size : Nat)
    (st : Nat → Capas α) (s : Storm) : Nat → Capas α :=
  fun rank =>
    { miniLayer := bombardeo tabla umbral (desplazamiento layer_size size rank)
        (local_layer_size layer_size size rank) (st rank).miniLayer s
      layer_copy := (st rank).layer_copy }

/-- Lines 230-275 on every worker: halo exchange and relaxation. -/
def relaja_todos (layer_size size : Nat) (st : Nat → Capas α) : Nat → Capas α :=
  fun rank =>
    relaja rank size (local_layer_size layer_size size rank)
      (halo_ini layer_size size (fun r => (st r).miniLayer) rank)
      (halo_fin size (fun r => (st r).miniLayer) rank) (st rank)

/-- Lines 279-290 on every worker. -/
def picos_locales (layer_size size : Nat) (basura : Nat → Int) (st : Nat → Capas α) :
    Nat → Registro α :=
  fun rank =>
    pico_local rank size (local_layer_size layer_size size rank)
      (desplazamiento layer_size size rank) (st rank).miniLayer (basura rank)

/-- Lines 191-291: one iteration of the storm loop on every worker. -/
def tormenta (tabla : Nat → α) (umbral : α) (layer_size size : Nat) (st : Nat → Capas α)
    (s : Storm) : Nat → Capas α :=
  relaja_todos layer_size size (bombardeo_todos tabla umbral layer_size size st s)

/-- Lines 191-298: the storm loop followed by the reduction; the result is
`(maximos[i], posiciones[i])` for each storm.  `basura i rank` is the initial
content of `local[i].posicion` on worker `rank`. -/
def kernel_desde (tabla : Nat → α) (umbral : α) (layer_size size : Nat)
    (basura : Nat → Nat → Int) : Nat → (Nat → Capas α) → List Storm → List (Registro α)
  | _, _, [] => []
  | i, st, s :: ss =>
    reduce_maxloc size (picos_locales layer_size size (basura i)
        (tormenta tabla umbral layer_size size st s)) ::
      kernel_desde tabla umbral layer_size size basura (i + 1)
        (tormenta tabla umbral layer_size size st s) ss

/-- Lines 169-173: both buffers start at zero. -/
def capas_cero : Nat → Capas α := fun _ => { miniLayer := fun _ => 0, layer_copy := fun _ => 0 }

/-- Lines 153-298: the whole kernel from the zero layer. -/
def kernel (tabla : Nat → α) (umbral : α) (layer_size size : Nat) (basura : Nat → Nat → Int)
    (storms : List Storm) : List (Registro α) :=
  kernel_desde tabla umbral layer_size size basura 0 capas_cero storms

/-- The relaxation filter as section 4.5 of the specification words it: the
cell `k` of `next`, from `prev` and the two halos. -/
def relajacion_spec (rank size local_layer_size : Nat) (leftHalo rightHalo : α)
    (prev : Nat → α) (k : Nat) : α :=
  if rank = 0 ∧ k = 0 then prev 0
  else if rank = size - 1 ∧ k = local_layer_size - 1 then prev (local_layer_size - 1)
  else if local_layer_size = 1 then (leftHalo + prev 0 + rightHalo) / 3
  else if k = 0 then (leftHalo + prev 0 + prev 1) / 3
  else if k = local_layer_size - 1 then
    (prev (local_layer_size - 1 - 1) + prev (local_layer_size - 1) + rightHalo) / 3
  else (prev (k - 1) + prev k + prev (k + 1)) / 3

/-- The global layer as the concatenation, in rank order, of the workers'
local layers (`capa rank k` is the local cell `k` of worker `rank`). -/
def concatena (layer_size size : Nat) (capa : Nat → Nat → α) : List α :=
  (List.range size).flatMap
    (fun rank => (List.range (local_layer_size layer_size size rank)).map (capa rank))

/-- The 3-point box filter with clamped ends on the whole layer, as the
specification words it: the cell `g` of `next`. -/
def filtro_global (layer_size : Nat) (prev : Nat → α) (g : Nat) : α :=
  if g = 0 then prev 0
  else if g = layer_size - 1 then prev (layer_size - 1)
  else (prev (g - 1) + prev g + prev (g + 1)) / 3

/-- A sample state over the rationals: the local cell `k` of worker `rank`
holds `(rank + 2 k + 1)^2` and the spare buffer holds `5`. -/
def capas_ejemplo : Nat → Capas ℚ :=
  fun rank => { miniLayer := fun k => ((rank : ℚ) + 2 * k + 1) ^ 2, layer_copy := fun _ => 5 }

/-- A sample state with a tie: worker 0 holds `[0, 5]` and worker 1 holds
`[5, 0]` (`layer_size = 4`, two workers). -/
def capas_empate : Nat → Capas ℚ :=
  fun rank => { miniLayer := fun k => if rank + k = 1 then 5 else 0, layer_copy := fun _ => 0 }

/-- Initial contents of `local[i].posicion`: 7 on worker 0 and 3 elsewhere. -/
def basura_ejemplo : Nat → Nat → Int := fun _ rank => if rank = 0 then 7 else 3

/-- The state of every worker after a list of storms, from the zero layer
(lines 169-173, then lines 191-291 once per storm). -/
def estado_tras (tabla : Nat → α) (umbral : α) (layer_size size : Nat) (storms : List Storm) :
    Nat → Capas α :=
  storms.foldl (tormenta tabla umbral layer_size size) capas_cero

end Kernel

/-! ## The deposit loop in binary32 (lines 199-223) -/

/-- Lines 153-155 on C `int`s, as `atoi` and `MPI_Comm_size` deliver them
(`/` and `%` truncate toward zero). -/
def local_layer_size_int (layer_size size rank : Int) : Int :=
  if rank < Int.tmod layer_size size then Int.tdiv layer_size size + 1
  else Int.tdiv layer_size size

/-- Line 156 on C `int`s. -/
def desplazamiento_int (layer_size size rank : Int) : Int :=
  if rank > Int.tmod layer_size size then
    rank * Int.tdiv layer_size size + Int.tmod layer_size size
  else rank * Int.tdiv layer_size size + rank

/-- The argument of the `malloc` calls of lines 159-160,
`sizeof(float) * local_layer_size`: the `int` is converted to the 64-bit
unsigned `size_t` and the product wraps modulo `2^64`. -/
def bytes_reserva (local_layer_size : Int) : Nat :=
  Int.toNat ((4 * local_layer_size) % 2 ^ 64)

/-- The greatest object size, `PTRDIFF_MAX` of `<stdint.h>` with 64-bit
pointers. -/
def PTRDIFF_MAX : Nat := 2 ^ 63 - 1

/-- Whether a `malloc` call returns `NULL`: always for a request above
`PTRDIFF_MAX` bytes; for the other requests `sin_memoria` says whether the
system refuses that many bytes. -/
def malloc_null (sin_memoria : Nat → Bool) (bytes : Nat) : Bool :=
  decide (PTRDIFF_MAX < bytes) || sin_memoria bytes

/-- Lines 153-167 on C `int`s: the partition of lines 153-156 followed by the
two allocations of lines 159-160 and the check of lines 163-167. The result
is `none` for the `exit(EXIT_FAILURE)` of line 166 and otherwise the pair
`(desplazamiento, local_layer_size)` the kernel goes on with. -/
def particion_reserva (miniLayer_sin_memoria layer_copy_sin_memoria : Nat → Bool)
    (layer_size size rank : Int) : Option (Int × Int) :=
  if malloc_null miniLayer_sin_memoria
        (bytes_reserva (local_layer_size_int layer_size size rank)) ||
      malloc_null layer_copy_sin_memoria
        (bytes_reserva (local_layer_size_int layer_size size rank)) then none
  else some (desplazamiento_int layer_size size rank, local_layer_size_int layer_size size rank)

/-! ## Indices used by the relaxation and the scan (lines 236-290) -/

/-- The request variables of lines 232-233. -/
inductive Peticion where
  | inicioR
  | finR
  deriving DecidableEq

/-- The steps of lines 234-275 that matter for the exchange: a non-blocking
send or receive with the neighbour's rank and the request variable it writes,
the buffer swap of lines 245-249, a wait on a request variable, and the
relaxation of lines 261-275. -/
inductive Paso where
  | isend (vecino : Nat) (req : Peticion)
  | irecv (vecino : Nat) (req : Peticion)
  | intercambio
  | wait (req : Peticion)
  | relajacion
  deriving DecidableEq

/-- Lines 234-275 of one worker, in program order. -/
def traza_halo (rank size : Nat) : List Paso :=
  (if rank ≠ 0 then [Paso.isend (rank - 1) Peticion.inicioR, Paso.irecv (rank - 1) Peticion.inicioR]
    else []) ++
  (if rank ≠ size - 1 then [Paso.isend (rank + 1) Peticion.finR, Paso.irecv (rank + 1) Peticion.finR]
    else []) ++
  [Paso.intercambio] ++
  (if rank ≠ 0 then [Paso.wait Peticion.inicioR] else []) ++
  (if rank ≠ size - 1 then [Paso.wait Peticion.finR] else []) ++
  [Paso.relajacion]

/-- The operations completed by a wait before the relaxation starts, by
their position in the trace. Following the MPI standard, a non-blocking call
stores the handle of its operation in the request variable (replacing what
the variable held) and `MPI_Wait` completes the operation whose handle the
variable holds and resets the variable. `i` is the position of the next
step, `vars` the contents of the request variables. -/
def completadas : List Paso → Nat → (Peticion → Option Nat) → List Nat
  | [], _, _ => []
  | Paso.relajacion :: _, _, _ => []
  | Paso.isend _ req :: ps, i, vars => completadas ps (i + 1) (Function.update vars req (some i))
  | Paso.irecv _ req :: ps, i, vars => completadas ps (i + 1) (Function.update vars req (some i))
  | Paso.intercambio :: ps, i, vars => completadas ps (i + 1) vars
  | Paso.wait req :: ps, i, vars =>
    match vars req with
    | some j => j :: completadas ps (i + 1) (Function.update vars req none)
    | none => completadas ps (i + 1) vars

/-- The positions in the trace of the non-blocking operations issued before
the relaxation. -/
def emitidas : List Paso → Nat → List Nat
  | [], _ => []
  | Paso.relajacion :: _, _ => []
  | Paso.isend _ _ :: ps, i => i :: emitidas ps (i + 1)
  | Paso.irecv _ _ :: ps, i => i :: emitidas ps (i + 1)
  | Paso.intercambio :: ps, i => emitidas ps (i + 1)
  | Paso.wait _ :: ps, i => emitidas ps (i + 1)

/-! ## Facts about the partition -/

theorem desplazamiento_cero (layer_size size : Nat) : desplazamiento layer_size size 0 = 0 := by
  simp [desplazamiento]

theorem desplazamiento_sig (layer_size size rank : Nat) :
    desplazamiento layer_size size (rank + 1) =
      desplazamiento layer_size size rank + local_layer_size layer_size size rank := by
  unfold desplazamiento local_layer_size
  rw [Nat.succ_mul]
  split_ifs <;> omega

theorem desplazamiento_size (layer_size size : Nat) (hW : 1 ≤ size) :
    desplazamiento layer_size size size = layer_size := by
  unfold desplazamiento
  have hlt : layer_size % size < size := Nat.mod_lt _ (by omega)
  have hdm := Nat.div_add_mod layer_size size
  rw [if_pos hlt]
  exact hdm

theorem desplazamiento_mono (layer_size size : Nat) {r r' : Nat} (h : r < r') :
    desplazamiento layer_size size r + local_layer_size layer_size size r ≤
      desplazamiento layer_size size r' := by
  induction r' with
  | zero => omega
  | succ m ih =>
    rw [desplazamiento_sig layer_size size m]
    rcases Nat.lt_succ_iff_lt_or_eq.mp h with h1 | h1
    · have := ih h1
      omega
    · subst h1
      omega

theorem suma_longitudes (layer_size size : Nat) (k : Nat) :
    ((List.range k).map (local_layer_size layer_size size)).sum =
      desplazamiento layer_size size k := by
  induction k with
  | zero => simp [desplazamiento_cero]
  | succ m ih =>
    rw [List.range_succ, List.map_append, List.sum_append, ih, desplazamiento_sig]
    simp

theorem local_layer_size_pos (layer_size size rank : Nat) (hW : 1 ≤ size)
    (hle : size ≤ layer_size) : 1 ≤ local_layer_size layer_size size rank := by
  unfold local_layer_size
  have : 1 ≤ layer_size / size := (Nat.one_le_div_iff (by omega)).mpr hle
  split_ifs <;> omega

theorem propietario_existe (layer_size size : Nat) (k g : Nat)
    (hg : g < desplazamiento layer_size size k) :
    ∃ rank, rank < k ∧ desplazamiento layer_size size rank ≤ g ∧
      g < desplazamiento layer_size size rank + local_layer_size layer_size size rank := by
  induction k with
  | zero => rw [desplazamiento_cero] at hg; omega
  | succ m ih =>
    by_cases hlt : g < desplazamiento layer_size size m
    · obtain ⟨r, hr, h1, h2⟩ := ih hlt
      exact ⟨r, by omega, h1, h2⟩
    · rw [desplazamiento_sig] at hg
      exact ⟨m, by omega, by omega, hg⟩

/-- C2. Partition coverage: the first offset is 0, each offset is the
previous one plus the previous length, the last range ends at `layer_size`,
the lengths add up to `layer_size`, every cell of `[0, layer_size)` lies in the
range of exactly one worker, and two lengths differ by at most 1. -/
theorem particion_cubre (layer_size size : Nat) (_hL : 1 ≤ layer_size) (hW : 1 ≤ size) :
    desplazamiento layer_size size 0 = 0 ∧
    (∀ rank, rank + 1 < size →
      desplazamiento layer_size size (rank + 1) =
        desplazamiento layer_size size rank + local_layer_size layer_size size rank) ∧
    desplazamiento layer_size size (size - 1) + local_layer_size layer_size size (size - 1) =
      layer_size ∧
    ((List.range size).map (local_layer_size layer_size size)).sum = layer_size ∧
    (∀ g, g < layer_size → ∃! rank, rank < size ∧ desplazamiento layer_size size rank ≤ g ∧
      g < desplazamiento layer_size size rank + local_layer_size layer_size size rank) ∧
    (∀ r r', r < size → r' < size →
      local_layer_size layer_size size r ≤ local_layer_size layer_size size r' + 1) := by
  have hlast : desplazamiento layer_size size (size - 1) +
      local_layer_size layer_size size (size - 1) = layer_size := by
    have h := desplazamiento_sig layer_size size (size - 1)
    rw [Nat.sub_add_cancel hW, desplazamiento_size layer_size size hW] at h
    exact h.symm
  refine ⟨desplazamiento_cero _ _, fun rank _ => desplazamiento_sig _ _ _, hlast, ?_, ?_, ?_⟩
  · rw [suma_longitudes, desplazamiento_size layer_size size hW]
  · intro g hg
    have hg' : g < desplazamiento layer_size size size := by
      rw [desplazamiento_size layer_size size hW]; exact hg
    obtain ⟨r, hr, h1, h2⟩ := propietario_existe layer_size size size g hg'
    refine ⟨r, ⟨hr, h1, h2⟩, ?_⟩
    rintro r' ⟨_, h1', h2'⟩
    rcases Nat.lt_trichotomy r' r with h | h | h
    · have := desplazamiento_mono layer_size size h
      omega
    · exact h
    · have := desplazamiento_mono layer_size size h
      omega
  · intro r r' _ _
    unfold local_layer_size
    split_ifs <;> omega

/-- Witness for C2: `layer_size = 10` split among 3 workers. -/
theorem particion_cubre_testigo :
    desplazamiento 10 3 0 = 0 ∧
    (∀ rank, rank + 1 < 3 →
      desplazamiento 10 3 (rank + 1) = desplazamiento 10 3 rank + local_layer_size 10 3 rank) ∧
    desplazamiento 10 3 (3 - 1) + local_layer_size 10 3 (3 - 1) = 10 ∧
    ((List.range 3).map (local_layer_size 10 3)).sum = 10 ∧
    (∀ g, g < 10 → ∃! rank, rank < 3 ∧ desplazamiento 10 3 rank ≤ g ∧
      g < desplazamiento 10 3 rank + local_layer_size 10 3 rank) ∧
    (∀ r r', r < 3 → r' < 3 → local_layer_size 10 3 r ≤ local_layer_size 10 3 r' + 1) :=
  particion_cubre 10 3 (by decide) (by decide)

/-! ## Facts about the concatenation of the local layers -/

section Concatenacion

variable {α : Type}

theorem concatena_length_aux (layer_size size k : Nat) (capa : Nat → Nat → α) :
    ((List.range k).flatMap
      (fun rank => (List.range (local_layer_size layer_size size rank)).map (capa rank))).length =
      desplazamiento layer_size size k := by
  induction k with
  | zero => simp [desplazamiento_cero]
  | succ m ih =>
    rw [List.range_succ, List.flatMap_append, List.length_append, ih, desplazamiento_sig]
    simp

theorem concatena_getD_aux (layer_size size k : Nat) (capa : Nat → Nat → α) (d : α)
    (rank j : Nat) (hr : rank < k) (hj : j < local_layer_size layer_size size rank) :
    ((List.range k).flatMap
      (fun rank => (List.range (local_layer_size layer_size size rank)).map (capa rank))).getD
      (desplazamiento layer_size size rank + j) d = capa rank j := by
  induction k with
  | zero => omega
  | succ m ih =>
    rw [List.range_succ, List.flatMap_append]
    have hlen := concatena_length_aux layer_size size m capa
    rcases Nat.lt_succ_iff_lt_or_eq.mp hr with h | h
    · have hm := desplazamiento_mono layer_size size h
      rw [List.getD_append _ _ _ _ (by rw [hlen]; omega)]
      exact ih h
    · subst h
      rw [List.getD_append_right _ _ _ _ (by rw [hlen]; omega), hlen]
      simp [List.getD_eq_getElem?_getD, List.getElem?_range, hj]

theorem concatena_length (layer_size size : Nat) (capa : Nat → Nat → α) (hW : 1 ≤ size) :
    (concatena layer_size size capa).length = layer_size := by
  unfold concatena
  rw [concatena_length_aux, desplazamiento_size layer_size size hW]

theorem concatena_getD (layer_size size : Nat) (capa : Nat → Nat → α) (d : α)
    (rank j : Nat) (hr : rank < size) (hj : j < local_layer_size layer_size size rank) :
    (concatena layer_size size capa).getD (desplazamiento layer_size size rank + j) d =
      capa rank j :=
  concatena_getD_aux layer_size size size capa d rank j hr hj

end Concatenacion

/-! ## Facts about the relaxation -/

section Relajacion

variable {α : Type} [LinearOrderedField α]

theorem foldl_update_apply {β : Type} (g : Nat → β) (a n : Nat) (m : Nat → β) (j : Nat) :
    ((List.range' a n).foldl (fun m k => Function.update m k (g k)) m) j =
      if a ≤ j ∧ j < a + n then g j else m j := by
  induction n with
  | zero =>
    rw [if_neg (by omega)]
    rfl
  | succ n ih =>
    rw [List.range'_concat, List.foldl_append]
    simp only [List.foldl_cons, List.foldl_nil, Function.update_apply, ih, Nat.one_mul]
    by_cases h : j = a + n
    · subst h
      simp
    · rw [if_neg h]
      by_cases h2 : a ≤ j ∧ j < a + n
      · rw [if_pos h2, if_pos ⟨h2.1, by omega⟩]
      · rw [if_neg h2, if_neg (by omega)]

theorem relaja_layer_copy (rank size len : Nat) (ini fin : α) (c : Capas α) :
    (relaja rank size len ini fin c).layer_copy = c.miniLayer := rfl

theorem relaja_eq_spec (rank size len : Nat) (ini fin : α) (c : Capas α) (k : Nat)
    (hk : k < len) :
    (relaja rank size len ini fin c).miniLayer k =
      relajacion_spec rank size len ini fin c.miniLayer k := by
  unfold relaja relajacion_spec
  simp only [foldl_update_apply]
  by_cases hint : 1 ≤ k ∧ k < 1 + (len - 1 - 1)
  · rw [if_pos hint, if_neg (by omega), if_neg (by omega), if_neg (by omega), if_neg (by omega),
      if_neg (by omega)]
  · rw [if_neg hint]
    by_cases hl1 : len = 1
    · subst hl1
      have hk0 : k = 0 := by omega
      subst hk0
      by_cases hr : rank = 0 <;> by_cases hs : rank = size - 1 <;>
        simp [hr, hs, Function.update_apply]
    · have hk' : k = 0 ∨ k = len - 1 := by omega
      have hne : len - 1 ≠ 0 := by omega
      rcases hk' with hk0 | hk1
      · subst hk0
        by_cases hr : rank = 0
        · by_cases hs : rank = size - 1
          · simp [eq_true hr, eq_true hs, hl1, hne, hne.symm, Function.update_apply]
          · simp [eq_true hr, eq_false hs, hl1, hne, hne.symm, Function.update_apply]
        · by_cases hs : rank = size - 1
          · simp [eq_false hr, eq_true hs, hl1, hne, hne.symm, Function.update_apply]
          · simp [eq_false hr, eq_false hs, hl1, hne, hne.symm, Function.update_apply]
      · subst hk1
        by_cases hr : rank = 0
        · by_cases hs : rank = size - 1
          · simp [eq_true hr, eq_true hs, hl1, hne, hne.symm, Function.update_apply]
          · simp [eq_true hr, eq_false hs, hl1, hne, hne.symm, Function.update_apply]
        · by_cases hs : rank = size - 1
          · simp [eq_false hr, eq_true hs, hl1, hne, hne.symm, Function.update_apply]
          · simp [eq_false hr, eq_false hs, hl1, hne, hne.symm, Function.update_apply]

theorem propietario_primera (layer_size size rank k : Nat) (hW : 1 ≤ size)
    (hle : size ≤ layer_size) (hg : desplazamiento layer_size size rank + k = 0) :
    rank = 0 ∧ k = 0 := by
  refine ⟨?_, by omega⟩
  by_contra hne
  have h0 : 0 < rank := Nat.pos_of_ne_zero hne
  have hm := desplazamiento_mono layer_size size h0
  have hp := local_layer_size_pos layer_size size 0 hW hle
  omega

theorem propietario_ultima (layer_size size rank k : Nat) (hW : 1 ≤ size)
    (hle : size ≤ layer_size) (hr : rank < size)
    (hk : k < local_layer_size layer_size size rank)
    (hg : desplazamiento layer_size size rank + k = layer_size - 1) :
    rank = size - 1 ∧ k = local_layer_size layer_size size rank - 1 := by
  have hs := desplazamiento_sig layer_size size (size - 1)
  rw [Nat.sub_add_cancel hW, desplazamiento_size layer_size size hW] at hs
  have hp := local_layer_size_pos layer_size size (size - 1) hW hle
  by_cases hlast : rank = size - 1
  · refine ⟨hlast, ?_⟩
    rw [← hlast] at hs
    omega
  · have hlt : rank < size - 1 := by omega
    have hm := desplazamiento_mono layer_size size hlt
    omega

/-- C3, as the code has it. Boundary invariance for `1 ≤ size ≤ layer_size`:
whatever the halos and the buffers, the relaxation step leaves the cells at
global positions `0` and `layer_size - 1` at their pre-relaxation value. -/
theorem frontera_invariante (layer_size size rank k : Nat) (ini fin : α) (c : Capas α)
    (hW : 1 ≤ size) (hle : size ≤ layer_size) (hr : rank < size)
    (hk : k < local_layer_size layer_size size rank)
    (hg : desplazamiento layer_size size rank + k = 0 ∨
      desplazamiento layer_size size rank + k = layer_size - 1) :
    (relaja rank size (local_layer_size layer_size size rank) ini fin c).miniLayer k =
      c.miniLayer k := by
  rw [relaja_eq_spec rank size _ ini fin c k hk]
  unfold relajacion_spec
  rcases hg with hg | hg
  · obtain ⟨h1, h2⟩ := propietario_primera layer_size size rank k hW hle hg
    rw [if_pos ⟨h1, h2⟩, h2]
  · obtain ⟨h1, h2⟩ := propietario_ultima layer_size size rank k hW hle hr hk hg
    by_cases h0 : rank = 0 ∧ k = 0
    · rw [if_pos h0, h0.2]
    · rw [if_neg h0, if_pos ⟨h1, h2⟩, ← h2]

/-- Witness for C3: `layer_size = 5`, two workers, the last cell of the
second one (global position 4). -/
theorem frontera_invariante_testigo :
    (relaja 1 2 (local_layer_size 5 2 1) (7 : ℚ) 9
      { miniLayer := fun k => (k : ℚ) + 1, layer_copy := fun _ => 0 }).miniLayer 1 =
      (fun k : Nat => (k : ℚ) + 1) 1 :=
  frontera_invariante 5 2 1 1 (7 : ℚ) 9
    { miniLayer := fun k => (k : ℚ) + 1, layer_copy := fun _ => 0 }
    (by decide) (by decide) (by decide) (by decide) (Or.inr (by decide))

/-- C3 as stated fails when there are more workers than cells: with
`layer_size = 2` and 3 workers, worker 1 owns global position `1 = layer_size - 1`
(offset 1, length 1) and is not the last rank, so its cell is averaged with the
halos: from 3 it becomes 1. -/
theorem frontera_alterada :
    (1 < 3 ∧ 0 < local_layer_size 2 3 1 ∧ desplazamiento 2 3 1 + 0 = 2 - 1) ∧
    (relaja 1 3 (local_layer_size 2 3 1) (0 : ℚ) 0
      { miniLayer := fun _ => 3, layer_copy := fun _ => 0 }).miniLayer 0 = 1 ∧
    (relaja 1 3 (local_layer_size 2 3 1) (0 : ℚ) 0
      { miniLayer := fun _ => 3, layer_copy := fun _ => 0 }).miniLayer 0 ≠
      (fun _ : Nat => (3 : ℚ)) 0 := by
  have h : (relaja 1 3 (local_layer_size 2 3 1) (0 : ℚ) 0
      { miniLayer := fun _ => 3, layer_copy := fun _ => 0 }).miniLayer 0 = 1 := by
    rw [relaja_eq_spec _ _ _ _ _ _ _ (by decide)]
    simp [relajacion_spec, local_layer_size]
  refine ⟨by decide, h, ?_⟩
  rw [h]
  norm_num

/-- C4. With `1 ≤ size ≤ layer_size` and each halo equal to the neighbour's
pre-relaxation edge cell, the concatenation of the workers' relaxed layers is
the global 3-point box filter with clamped ends applied to the concatenation of
their post-bombardment layers (partitions of length 1 included). -/
theorem relajacion_es_filtro_global (layer_size size : Nat) (st : Nat → Capas α)
    (ini fin : Nat → α) (hW : 1 ≤ size) (hle : size ≤ layer_size)
    (hini : ∀ rank, 0 < rank → rank < size →
      ini rank = (st (rank - 1)).miniLayer (local_layer_size layer_size size (rank - 1) - 1))
    (hfin : ∀ rank, rank + 1 < size → fin rank = (st (rank + 1)).miniLayer 0) :
    (concatena layer_size size (fun rank => (st rank).miniLayer)).length = layer_size ∧
    (concatena layer_size size (fun rank =>
      (relaja rank size (local_layer_size layer_size size rank) (ini rank) (fin rank)
        (st rank)).miniLayer)).length = layer_size ∧
    ∀ g, g < layer_size →
      (concatena layer_size size (fun rank =>
        (relaja rank size (local_layer_size layer_size size rank) (ini rank) (fin rank)
          (st rank)).miniLayer)).getD g 0 =
      filtro_global layer_size
        (fun i => (concatena layer_size size (fun rank => (st rank).miniLayer)).getD i 0) g := by
  refine ⟨concatena_length _ _ _ hW, concatena_length _ _ _ hW, ?_⟩
  intro g hg
  obtain ⟨rank, hr, h1, h2⟩ := propietario_existe layer_size size size g
    (by rw [desplazamiento_size layer_size size hW]; exact hg)
  obtain ⟨j, rfl⟩ : ∃ j, g = desplazamiento layer_size size rank + j := ⟨g - desplazamiento layer_size size rank, by omega⟩
  have hj : j < local_layer_size layer_size size rank := by omega
  have hpos : ∀ r, 1 ≤ local_layer_size layer_size size r :=
    fun r => local_layer_size_pos layer_size size r hW hle
  have hend := desplazamiento_sig layer_size size (size - 1)
  rw [Nat.sub_add_cancel hW, desplazamiento_size layer_size size hW] at hend
  rw [concatena_getD _ _ _ _ _ _ hr hj, relaja_eq_spec _ _ _ _ _ _ _ hj]
  -- the centre cell
  have hC : (concatena layer_size size (fun rank => (st rank).miniLayer)).getD
      (desplazamiento layer_size size rank + j) 0 = (st rank).miniLayer j :=
    concatena_getD _ _ _ _ _ _ hr hj
  unfold filtro_global relajacion_spec
  by_cases hg0 : desplazamiento layer_size size rank + j = 0
  · obtain ⟨hr0, hj0⟩ := propietario_primera layer_size size rank j hW hle hg0
    have hC0 := hC
    rw [hg0] at hC0
    rw [if_pos hg0, if_pos ⟨hr0, hj0⟩]
    simp only []
    rw [hC0, hj0]
  · have hnot0 : ¬(rank = 0 ∧ j = 0) := by
      rintro ⟨a, b⟩
      subst a b
      rw [desplazamiento_cero] at hg0
      omega
    rw [if_neg hg0, if_neg hnot0]
    by_cases hgl : desplazamiento layer_size size rank + j = layer_size - 1
    · obtain ⟨hrl, hjl⟩ := propietario_ultima layer_size size rank j hW hle hr hj hgl
      have hCl := hC
      rw [hgl] at hCl
      rw [if_pos hgl, if_pos ⟨hrl, hjl⟩]
      simp only []
      rw [hCl, hjl]
    · have hnotl : ¬(rank = size - 1 ∧ j = local_layer_size layer_size size rank - 1) := by
        rintro ⟨a, b⟩
        rw [← a] at hend
        omega
      rw [if_neg hgl, if_neg hnotl]
      simp only []
      rw [hC]
      -- the left neighbour
      have hL : (concatena layer_size size (fun rank => (st rank).miniLayer)).getD
          (desplazamiento layer_size size rank + j - 1) 0 =
          if j = 0 then ini rank else (st rank).miniLayer (j - 1) := by
        by_cases hj0 : j = 0
        · have hr0 : 0 < rank := by
            rcases Nat.eq_zero_or_pos rank with h | h
            · exact absurd ⟨h, hj0⟩ hnot0
            · exact h
          have hsig := desplazamiento_sig layer_size size (rank - 1)
          rw [Nat.sub_add_cancel hr0] at hsig
          have hp := hpos (rank - 1)
          rw [if_pos hj0, hini rank hr0 hr]
          have hidx : desplazamiento layer_size size rank + j - 1 =
              desplazamiento layer_size size (rank - 1) +
                (local_layer_size layer_size size (rank - 1) - 1) := by omega
          rw [hidx]
          exact concatena_getD _ _ _ _ _ _ (by omega) (by omega)
        · rw [if_neg hj0]
          have hidx : desplazamiento layer_size size rank + j - 1 =
              desplazamiento layer_size size rank + (j - 1) := by omega
          rw [hidx]
          exact concatena_getD _ _ _ _ _ _ hr (by omega)
      -- the right neighbour
      have hR : (concatena layer_size size (fun rank => (st rank).miniLayer)).getD
          (desplazamiento layer_size size rank + j + 1) 0 =
          if j = local_layer_size layer_size size rank - 1 then fin rank
          else (st rank).miniLayer (j + 1) := by
        by_cases hjl : j = local_layer_size layer_size size rank - 1
        · have hrl : rank + 1 < size := by
            by_contra hcon
            exact hnotl ⟨by omega, hjl⟩
          have hsig := desplazamiento_sig layer_size size rank
          have hp := hpos (rank + 1)
          rw [if_pos hjl, hfin rank hrl]
          have hidx : desplazamiento layer_size size rank + j + 1 =
              desplazamiento layer_size size (rank + 1) + 0 := by omega
          rw [hidx]
          exact concatena_getD _ _ _ _ _ _ hrl (by omega)
        · rw [if_neg hjl]
          have hidx : desplazamiento layer_size size rank + j + 1 =
              desplazamiento layer_size size rank + (j + 1) := by omega
          rw [hidx]
          exact concatena_getD _ _ _ _ _ _ hr (by omega)
      rw [hL, hR]
      by_cases hl1 : local_layer_size layer_size size rank = 1
      · have hj0 : j = 0 := by omega
        rw [if_pos hl1, if_pos hj0, if_pos (by omega), hj0]
      · rw [if_neg hl1]
        by_cases hj0 : j = 0
        · rw [if_pos hj0, if_pos hj0, if_neg (by omega), hj0]
        · rw [if_neg hj0, if_neg hj0]
          by_cases hjl : j = local_layer_size layer_size size rank - 1
          · rw [if_pos hjl, if_pos hjl, hjl]
          · rw [if_neg hjl, if_neg hjl]

/-- Witness for C4: four workers of one cell each (`layer_size = 4`), the
halos being the ones the exchange delivers. -/
theorem relajacion_es_filtro_global_testigo :
    (concatena 4 4 (fun rank => (capas_ejemplo rank).miniLayer)).length = 4 ∧
    (concatena 4 4 (fun rank =>
      (relaja rank 4 (local_layer_size 4 4 rank)
        (halo_ini 4 4 (fun r => (capas_ejemplo r).miniLayer) rank)
        (halo_fin 4 (fun r => (capas_ejemplo r).miniLayer) rank)
        (capas_ejemplo rank)).miniLayer)).length = 4 ∧
    ∀ g, g < 4 →
      (concatena 4 4 (fun rank =>
        (relaja rank 4 (local_layer_size 4 4 rank)
          (halo_ini 4 4 (fun r => (capas_ejemplo r).miniLayer) rank)
          (halo_fin 4 (fun r => (capas_ejemplo r).miniLayer) rank)
          (capas_ejemplo rank)).miniLayer)).getD g 0 =
      filtro_global 4
        (fun i => (concatena 4 4 (fun rank => (capas_ejemplo rank).miniLayer)).getD i 0) g :=
  relajacion_es_filtro_global 4 4 capas_ejemplo
    (halo_ini 4 4 (fun r => (capas_ejemplo r).miniLayer))
    (halo_fin 4 (fun r => (capas_ejemplo r).miniLayer))
    (by decide) (by decide)
    (fun rank h0 _ => by
      unfold halo_ini
      rw [if_pos (by omega)])
    (fun rank h => by
      unfold halo_fin
      rw [if_pos (by omega)])

end Relajacion

/-! ## State carried from one storm to the next -/

section Estado

variable {α : Type} [LinearOrderedField α] [FloorRing α]

/-- C8. State is carried between storms: after a storm every local cell of
`miniLayer` is the relaxation of the post-bombardment layer and the halos
(whatever the other buffer held, so nothing stale and nothing reset), and the
next storm's bombardment accumulates into exactly that layer. -/
theorem estado_entre_tormentas (tabla : Nat → α) (umbral : α) (layer_size size : Nat)
    (basura : Nat → Nat → Int) (i : Nat) (st : Nat → Capas α) (s s' : Storm) (ss : List Storm)
    (rank k : Nat) (hk : k < local_layer_size layer_size size rank) :
    (tormenta tabla umbral layer_size size st s rank).miniLayer k =
      relajacion_spec rank size (local_layer_size layer_size size rank)
        (halo_ini layer_size size
          (fun r => (bombardeo_todos tabla umbral layer_size size st s r).miniLayer) rank)
        (halo_fin size
          (fun r => (bombardeo_todos tabla umbral layer_size size st s r).miniLayer) rank)
        (bombardeo_todos tabla umbral layer_size size st s rank).miniLayer k ∧
    (∀ st' : Nat → Capas α, (∀ r, (st' r).miniLayer = (st r).miniLayer) →
      (tormenta tabla umbral layer_size size st' s rank).miniLayer k =
        (tormenta tabla umbral layer_size size st s rank).miniLayer k) ∧
    (bombardeo_todos tabla umbral layer_size size
        (tormenta tabla umbral layer_size size st s) s' rank).miniLayer =
      bombardeo tabla umbral (desplazamiento layer_size size rank)
        (local_layer_size layer_size size rank)
        (tormenta tabla umbral layer_size size st s rank).miniLayer s' ∧
    kernel_desde tabla umbral layer_size size basura i st (s :: s' :: ss) =
      reduce_maxloc size (picos_locales layer_size size (basura i)
          (tormenta tabla umbral layer_size size st s)) ::
        kernel_desde tabla umbral layer_size size basura (i + 1)
          (tormenta tabla umbral layer_size size st s) (s' :: ss) := by
  have hcell : ∀ st0 : Nat → Capas α,
      (tormenta tabla umbral layer_size size st0 s rank).miniLayer k =
      relajacion_spec rank size (local_layer_size layer_size size rank)
        (halo_ini layer_size size
          (fun r => (bombardeo_todos tabla umbral layer_size size st0 s r).miniLayer) rank)
        (halo_fin size
          (fun r => (bombardeo_todos tabla umbral layer_size size st0 s r).miniLayer) rank)
        (bombardeo_todos tabla umbral layer_size size st0 s rank).miniLayer k := by
    intro st0
    unfold tormenta relaja_todos
    exact relaja_eq_spec _ _ _ _ _ _ _ hk
  refine ⟨hcell st, ?_, rfl, rfl⟩
  intro st' hst
  have hb : (fun r => (bombardeo_todos tabla umbral layer_size size st' s r).miniLayer) =
      (fun r => (bombardeo_todos tabla umbral layer_size size st s r).miniLayer) := by
    funext r
    unfold bombardeo_todos
    simp only [hst r]
  have hb' := congrFun hb rank
  simp only [] at hb'
  rw [hcell st', hcell st, hb, hb']

/-- Witness for C8: `layer_size = 4`, two workers, worker 0, local cell 1. -/
theorem estado_entre_tormentas_testigo :
    (tormenta (fun _ => 1) (UMBRAL : ℚ) 4 2 capas_ejemplo [(1, 2)] 0).miniLayer 1 =
      relajacion_spec 0 2 (local_layer_size 4 2 0)
        (halo_ini 4 2
          (fun r => (bombardeo_todos (fun _ => 1) (UMBRAL : ℚ) 4 2 capas_ejemplo [(1, 2)] r).miniLayer) 0)
        (halo_fin 2
          (fun r => (bombardeo_todos (fun _ => 1) (UMBRAL : ℚ) 4 2 capas_ejemplo [(1, 2)] r).miniLayer) 0)
        (bombardeo_todos (fun _ => 1) (UMBRAL : ℚ) 4 2 capas_ejemplo [(1, 2)] 0).miniLayer 1 ∧
    (∀ st' : Nat → Capas ℚ, (∀ r, (st' r).miniLayer = (capas_ejemplo r).miniLayer) →
      (tormenta (fun _ => 1) (UMBRAL : ℚ) 4 2 st' [(1, 2)] 0).miniLayer 1 =
        (tormenta (fun _ => 1) (UMBRAL : ℚ) 4 2 capas_ejemplo [(1, 2)] 0).miniLayer 1) ∧
    (bombardeo_todos (fun _ => 1) (UMBRAL : ℚ) 4 2
        (tormenta (fun _ => 1) (UMBRAL : ℚ) 4 2 capas_ejemplo [(1, 2)]) [(3, 1)] 0).miniLayer =
      bombardeo (fun _ => 1) (UMBRAL : ℚ) (desplazamiento 4 2 0) (local_layer_size 4 2 0)
        (tormenta (fun _ => 1) (UMBRAL : ℚ) 4 2 capas_ejemplo [(1, 2)] 0).miniLayer [(3, 1)] ∧
    kernel_desde (fun _ => 1) (UMBRAL : ℚ) 4 2 (fun _ _ => 0) 0 capas_ejemplo
        ([(1, 2)] :: [(3, 1)] :: []) =
      reduce_maxloc 2 (picos_locales 4 2 ((fun _ _ => 0 : Nat → Nat → Int) 0)
          (tormenta (fun _ => 1) (UMBRAL : ℚ) 4 2 capas_ejemplo [(1, 2)])) ::
        kernel_desde (fun _ => 1) (UMBRAL : ℚ) 4 2 (fun _ _ => 0) (0 + 1)
          (tormenta (fun _ => 1) (UMBRAL : ℚ) 4 2 capas_ejemplo [(1, 2)]) ([(3, 1)] :: []) :=
  estado_entre_tormentas (fun _ => 1) (UMBRAL : ℚ) 4 2 (fun _ _ => 0) 0 capas_ejemplo
    [(1, 2)] [(3, 1)] [] 0 1 (by decide)

end Estado

/-! ## Facts about binary32 rounding -/

section Binary32

/-- A rational within `1/2` of the integer `n` rounds to `n`. -/
theorem redondea_par_eq (s : ℚ) (n : Int) (h : |s - n| < 1 / 2) : redondea_par s = n := by
  have h1 := Int.floor_le s
  have h2 := Int.lt_floor_add_one s
  rw [abs_lt] at h
  unfold redondea_par
  split_ifs with ha hb hc
  · have : (⌊s⌋ : ℚ) - 1 < n ∧ (n : ℚ) < ⌊s⌋ + 1 := ⟨by linarith, by linarith⟩
    have h3 : ⌊s⌋ - 1 < n := by exact_mod_cast this.1
    have h4 : n < ⌊s⌋ + 1 := by exact_mod_cast this.2
    omega
  · have : (⌊s⌋ : ℚ) < n ∧ (n : ℚ) < ⌊s⌋ + 2 := ⟨by linarith, by linarith⟩
    have h3 : ⌊s⌋ < n := by exact_mod_cast this.1
    have h4 : n < ⌊s⌋ + 2 := by exact_mod_cast this.2
    omega
  · exfalso
    have he : s - ⌊s⌋ = 1 / 2 := le_antisymm (not_lt.mp hb) (not_lt.mp ha)
    have : (⌊s⌋ : ℚ) < n ∧ (n : ℚ) < ⌊s⌋ + 1 := ⟨by linarith, by linarith⟩
    have h3 : ⌊s⌋ < n := by exact_mod_cast this.1
    have h4 : n < ⌊s⌋ + 1 := by exact_mod_cast this.2
    omega
  · exfalso
    have he : s - ⌊s⌋ = 1 / 2 := le_antisymm (not_lt.mp hb) (not_lt.mp ha)
    have : (⌊s⌋ : ℚ) < n ∧ (n : ℚ) < ⌊s⌋ + 1 := ⟨by linarith, by linarith⟩
    have h3 : ⌊s⌋ < n := by exact_mod_cast this.1
    have h4 : n < ⌊s⌋ + 1 := by exact_mod_cast this.2
    omega

/-- The binary exponent of a positive rational, from its two bounds. -/
theorem log2_eq (q : ℚ) (t : Int) (h1 : (2 : ℚ) ^ t ≤ q) (h2 : q < (2 : ℚ) ^ (t + 1)) :
    Int.log 2 q = t := by
  have hq : 0 < q := lt_of_lt_of_le (by positivity) h1
  have a : t ≤ Int.log 2 q :=
    (Int.zpow_le_iff_le_log (by norm_num) hq).mp (by exact_mod_cast h1)
  have b : Int.log 2 q < t + 1 :=
    (Int.lt_zpow_iff_log_lt (by norm_num) hq).mp (by exact_mod_cast h2)
  omega

/-- A rational whose significand is an integer is a binary32 value. -/
theorem f32_de_entero (q : ℚ) (m : Int) (hq : q ≠ 0)
    (h : q / 2 ^ (Int.log 2 |q| - 23) = (m : ℚ)) : f32 q = q := by
  unfold f32
  rw [if_neg hq, h, redondea_par_eq (m : ℚ) m (by simp), ← h]
  exact div_mul_cancel₀ q (by positivity)

/-- The conversion of an `int` to `float` is exact up to `2^24` in absolute
value. -/
theorem f32_int (k : Int) (hk : |k| ≤ 16777216) : f32 (k : ℚ) = (k : ℚ) := by
  by_cases h0 : k = 0
  · subst h0
    simp [f32]
  have hq : (k : ℚ) ≠ 0 := by exact_mod_cast h0
  have ha : |(k : ℚ)| = ((|k| : Int) : ℚ) := by push_cast; rfl
  have hpos : (0 : ℚ) < |(k : ℚ)| := abs_pos.mpr hq
  have h1 : (1 : Int) ≤ |k| := Int.one_le_abs h0
  have hlo : 0 ≤ Int.log 2 |(k : ℚ)| := by
    have h2 : ((2 : Nat) : ℚ) ^ (0 : Int) ≤ |(k : ℚ)| := by
      rw [ha]
      have : ((1 : Int) : ℚ) ≤ ((|k| : Int) : ℚ) := by exact_mod_cast h1
      simpa using this
    exact (Int.zpow_le_iff_le_log (by norm_num) hpos).mp h2
  by_cases h24 : |k| = 16777216
  · have hl : Int.log 2 |(k : ℚ)| = 24 := by
      apply log2_eq
      · rw [ha, h24]; norm_num
      · rw [ha, h24]; norm_num
    have hk2 : k = 16777216 ∨ k = -16777216 := by
      rcases abs_cases k with ⟨h, _⟩ | ⟨h, _⟩ <;> omega
    rcases hk2 with h | h
    · apply f32_de_entero _ 8388608 hq
      rw [hl, h]; norm_num
    · apply f32_de_entero _ (-8388608) hq
      rw [hl, h]; norm_num
  · have hlt : |k| < 16777216 := lt_of_le_of_ne hk h24
    have hhi : Int.log 2 |(k : ℚ)| < 24 := by
      have h2 : |(k : ℚ)| < ((2 : Nat) : ℚ) ^ (24 : Int) := by
        rw [ha]
        have : ((|k| : Int) : ℚ) < ((16777216 : Int) : ℚ) := by exact_mod_cast hlt
        norm_num at this ⊢
        exact this
      exact (Int.lt_zpow_iff_log_lt (by norm_num) hpos).mp h2
    obtain ⟨j, hj⟩ : ∃ j : Nat, Int.log 2 |(k : ℚ)| - 23 = -(j : Int) :=
      ⟨Int.toNat (23 - Int.log 2 |(k : ℚ)|), by omega⟩
    apply f32_de_entero _ (k * 2 ^ j) hq
    rw [hj, zpow_neg, zpow_natCast]
    push_cast
    field_simp

/-- The conversion of a natural number to `float` is exact up to `2^24`. -/
theorem f32_nat (k : Nat) (hk : k ≤ 16777216) : f32 ((k : Nat) : ℚ) = (k : ℚ) := by
  have := f32_int (k : Int) (by rw [abs_of_nonneg (by omega)]; omega)
  simpa using this

/-- A loop whose test holds at every index of the range runs over the whole
range. -/
theorem takeWhile_range_todo (p : Nat → Bool) (a n : Nat)
    (h : ∀ k, a ≤ k → k < a + n → p k = true) :
    (List.range' a n).takeWhile p = List.range' a n := by
  rw [List.takeWhile_eq_self_iff]
  intro k hk
  rw [List.mem_range'_1] at hk
  exact h k hk.1 hk.2

/-- A loop with a test runs over an initial part of the range. -/
theorem takeWhile_range_prefijo (p : Nat → Bool) (a n : Nat) :
    ∃ n', n' ≤ n ∧ (List.range' a n).takeWhile p = List.range' a n' := by
  induction n generalizing a with
  | zero => exact ⟨0, le_refl _, by simp⟩
  | succ n ih =>
    rw [List.range'_succ]
    by_cases hp : p a = true
    · obtain ⟨n', h1, h2⟩ := ih (a + 1)
      refine ⟨n' + 1, by omega, ?_⟩
      rw [List.takeWhile_cons_of_pos hp, h2, List.range'_succ]
    · refine ⟨0, by omega, ?_⟩
      rw [List.takeWhile_cons_of_neg hp]
      simp

end Binary32

/-! ## The local peak scan -/

section Pico

variable {α : Type} [LinearOrderedField α]

theorem compara_pos (off : Nat) (m : Nat → α) (l : Registro α) (k : Nat)
    (h : m k > l.valor) :
    compara off m l k = { valor := m k, posicion := (k : Int) + off } := by
  unfold compara
  rw [if_pos h]

theorem compara_neg (off : Nat) (m : Nat → α) (l : Registro α) (k : Nat)
    (h : ¬ m k > l.valor) : compara off m l k = l := by
  unfold compara
  rw [if_neg h]

/-- Invariant of the scan loop over the indices `a .. a+n-1` from the record
`l0`: either nothing exceeded `l0.valor` and the record is still `l0`, or the
record holds the first index that attains the greatest scanned cell. -/
theorem escaneo_inv (off : Nat) (m : Nat → α) (l0 : Registro α) (a n : Nat) :
    ((List.range' a n).foldl (compara off m) l0 = l0 ∧
      ∀ k, a ≤ k → k < a + n → m k ≤ l0.valor) ∨
    ∃ k0, a ≤ k0 ∧ k0 < a + n ∧
      ((List.range' a n).foldl (compara off m) l0).valor = m k0 ∧
      ((List.range' a n).foldl (compara off m) l0).posicion = (k0 : Int) + off ∧
      l0.valor < m k0 ∧ (∀ k, a ≤ k → k < k0 → m k < m k0) ∧
      ∀ k, a ≤ k → k < a + n → m k ≤ m k0 := by
  induction n with
  | zero =>
    left
    exact ⟨rfl, fun k h1 h2 => by omega⟩
  | succ n ih =>
    rw [List.range'_concat, List.foldl_append]
    simp only [List.foldl_cons, List.foldl_nil, Nat.one_mul]
    rcases ih with ⟨heq, hle⟩ | ⟨k0, hk0a, hk0b, hval, hpos, hlt, hfirst, hall⟩
    · rw [heq]
      by_cases hc : m (a + n) > l0.valor
      · right
        rw [compara_pos off m l0 (a + n) hc]
        refine ⟨a + n, by omega, by omega, rfl, rfl, hc, ?_, ?_⟩
        · intro k h1 h2
          exact lt_of_le_of_lt (hle k h1 h2) hc
        · intro k h1 h2
          rcases Nat.lt_succ_iff_lt_or_eq.mp (by omega : k < (a + n) + 1) with h | h
          · exact le_of_lt (lt_of_le_of_lt (hle k h1 h) hc)
          · rw [h]
      · left
        rw [compara_neg off m l0 (a + n) hc]
        refine ⟨rfl, ?_⟩
        intro k h1 h2
        rcases Nat.lt_succ_iff_lt_or_eq.mp (by omega : k < (a + n) + 1) with h | h
        · exact hle k h1 h
        · rw [h]
          exact not_lt.mp hc
    · right
      by_cases hc : m (a + n) > ((List.range' a n).foldl (compara off m) l0).valor
      · rw [compara_pos off m _ (a + n) hc]
        rw [hval] at hc
        refine ⟨a + n, by omega, by omega, rfl, rfl, lt_trans hlt hc, ?_, ?_⟩
        · intro k h1 h2
          exact lt_of_le_of_lt (hall k h1 h2) hc
        · intro k h1 h2
          rcases Nat.lt_succ_iff_lt_or_eq.mp (by omega : k < (a + n) + 1) with h | h
          · exact le_of_lt (lt_of_le_of_lt (hall k h1 h) hc)
          · rw [h]
      · rw [compara_neg off m _ (a + n) hc]
        rw [hval] at hc
        refine ⟨k0, hk0a, by omega, hval, hpos, hlt, hfirst, ?_⟩
        intro k h1 h2
        rcases Nat.lt_succ_iff_lt_or_eq.mp (by omega : k < (a + n) + 1) with h | h
        · exact hall k h1 h
        · rw [h]
          exact not_lt.mp hc

/-- The scanned indices of `pico_local` are those with
`ini_pico rank ≤ k` and `k < fin_pico rank size len`. -/
theorem rango_pico (rank size len k : Nat) :
    (ini_pico rank ≤ k ∧
      k < ini_pico rank + (Int.toNat (fin_pico rank size len) - ini_pico rank)) ↔
    (ini_pico rank ≤ k ∧ (k : Int) < fin_pico rank size len) := by
  omega

/-- The bound of the scan is at most the length. -/
theorem fin_pico_le (rank size len : Nat) : fin_pico rank size len ≤ (len : Int) := by
  unfold fin_pico
  split_ifs <;> omega

/-- The scan of `pico_local` runs over an initial part of the range of lines
279-280. -/
theorem pico_local_prefijo (rank size len off : Nat) (m : Nat → α) (basura : Int) :
    ∃ n', n' ≤ Int.toNat (fin_pico rank size len) - ini_pico rank ∧
      pico_local rank size len off m basura =
        (List.range' (ini_pico rank) n').foldl (compara off m)
          { valor := 0, posicion := basura } := by
  obtain ⟨n', h1, h2⟩ := takeWhile_range_prefijo
    (fun k => decide (f32 ((k : Nat) : ℚ) < f32 ((fin_pico rank size len : Int) : ℚ)))
    (ini_pico rank) (Int.toNat (fin_pico rank size len) - ini_pico rank)
  refine ⟨n', h1, ?_⟩
  unfold pico_local
  rw [h2]

/-- With a bound of at most `2^24` the conversion to `float` is exact and the
scan of `pico_local` runs over the whole range of lines 279-280. -/
theorem pico_local_exacto (rank size len off : Nat) (m : Nat → α) (basura : Int)
    (hfin : fin_pico rank size len ≤ 16777216) :
    pico_local rank size len off m basura =
      (List.range' (ini_pico rank) (Int.toNat (fin_pico rank size len) - ini_pico rank)).foldl
        (compara off m) { valor := 0, posicion := basura } := by
  unfold pico_local
  rw [takeWhile_range_todo]
  intro k hk1 hk2
  have hk : (k : Int) < fin_pico rank size len := by omega
  rw [decide_eq_true_iff, f32_nat k (by omega),
    f32_int (fin_pico rank size len) (by rw [abs_of_nonneg (by omega)]; exact hfin)]
  have : ((k : Int) : ℚ) < ((fin_pico rank size len : Int) : ℚ) := by exact_mod_cast hk
  simpa using this

/-- A record with a positive value carries a position inside the worker's
own range. -/
theorem pico_local_posicion (rank size len off : Nat) (m : Nat → α) (basura : Int)
    (h : 0 < (pico_local rank size len off m basura).valor) :
    (off : Int) ≤ (pico_local rank size len off m basura).posicion ∧
    (pico_local rank size len off m basura).posicion < (off : Int) + len := by
  have hfin : fin_pico rank size len ≤ (len : Int) := by
    unfold fin_pico
    split_ifs <;> omega
  obtain ⟨n', hn', heq'⟩ := pico_local_prefijo rank size len off m basura
  rw [heq'] at h ⊢
  rcases escaneo_inv off m { valor := 0, posicion := basura } (ini_pico rank) n' with
    ⟨heq, _⟩ | ⟨k0, hk0a, hk0b, _, hpos, _, _, _⟩
  · rw [heq] at h
    exact absurd h (lt_irrefl _)
  · rw [hpos]
    omega

/-- When no cell of the range of lines 279-280 is greater than 0, the record
has value 0 and the scan assigns no position: the position field keeps what
it held before the scan. -/
theorem pico_sin_energia (rank size len off : Nat) (m : Nat → α) (basura : Int)
    (h : ∀ k : Nat, ini_pico rank ≤ k → (k : Int) < fin_pico rank size len → m k ≤ 0) :
    pico_local rank size len off m basura = { valor := 0, posicion := basura } := by
  obtain ⟨n', hn', heq'⟩ := pico_local_prefijo rank size len off m basura
  rw [heq']
  rcases escaneo_inv off m { valor := 0, posicion := basura } (ini_pico rank) n' with
    ⟨heq, _⟩ | ⟨k0, hk0a, hk0b, _, _, hlt, _, _⟩
  · exact heq
  · have hk0 := ((rango_pico rank size len k0).mp ⟨hk0a, by omega⟩).2
    exact absurd (h k0 hk0a hk0) (not_le.mpr hlt)

end Pico

/-! ## The reduction -/

section Reduccion

variable {α : Type} [LinearOrderedField α]

theorem maxloc_valor_lt (a b : Registro α) (M : α) (ha : a.valor < M) (hb : b.valor < M) :
    (maxloc a b).valor < M := by
  unfold maxloc
  split_ifs <;> assumption

theorem maxloc_der (a b : Registro α) (h : a.valor < b.valor) : maxloc a b = b := by
  unfold maxloc
  rw [if_neg (not_lt.mpr (le_of_lt h)), if_pos h]

theorem maxloc_izq (a b : Registro α) (hle : b.valor ≤ a.valor)
    (hpos : b.valor = a.valor → a.posicion ≤ b.posicion) : maxloc a b = a := by
  unfold maxloc
  by_cases h : a.valor > b.valor
  · rw [if_pos h]
  · rw [if_neg h, if_neg (not_lt.mpr hle)]
    have heq : b.valor = a.valor := le_antisymm hle (not_lt.mp h)
    rw [min_eq_left (hpos heq)]

/-- Folding `maxloc` over the ranks `0 .. n`, when rank `r0` is the lowest
rank holding the greatest value `M` and every other record with value `M`
has a position not below that of `r0`. -/
theorem reduce_inv (loc : Nat → Registro α) (r0 : Nat) (n : Nat)
    (hmax : ∀ r, r ≤ n → (loc r).valor ≤ (loc r0).valor)
    (hfirst : ∀ r, r < r0 → (loc r).valor < (loc r0).valor)
    (hord : ∀ r, r0 < r → r ≤ n → (loc r).valor = (loc r0).valor →
      (loc r0).posicion ≤ (loc r).posicion) :
    (n < r0 → (((List.range' 1 n).map loc).foldl maxloc (loc 0)).valor < (loc r0).valor) ∧
    (r0 ≤ n → ((List.range' 1 n).map loc).foldl maxloc (loc 0) = loc r0) := by
  induction n with
  | zero =>
    constructor
    · intro h
      exact hfirst 0 h
    · intro h
      have : r0 = 0 := by omega
      subst this
      rfl
  | succ n ih =>
    have ih' := ih (fun r hr => hmax r (by omega)) (fun r h1 h2 => hord r h1 (by omega))
    rw [List.range'_concat, List.map_append, List.foldl_append]
    simp only [List.map_cons, List.map_nil, List.foldl_cons, List.foldl_nil, Nat.one_mul]
    constructor
    · intro h
      exact maxloc_valor_lt _ _ _ (ih'.1 (by omega)) (hfirst (1 + n) (by omega))
    · intro h
      rcases Nat.lt_or_ge n r0 with hlt | hge
      · have hr0 : 1 + n = r0 := by omega
        rw [hr0]
        exact maxloc_der _ _ (ih'.1 hlt)
      · rw [ih'.2 hge]
        exact maxloc_izq _ _ (hmax (1 + n) (by omega))
          (fun heq => hord (1 + n) (by omega) (by omega) heq)

/-- Tie-break of the reduction on positive values: when the greatest local
peak value is greater than 0, the global record carries that value and the
position reported by the lowest-ranked worker that holds it (ties
included). -/
theorem desempate_reduccion (layer_size size : Nat) (basura : Nat → Int) (st : Nat → Capas α)
    (r0 : Nat) (hr0 : r0 < size)
    (hpos : 0 < (picos_locales layer_size size basura st r0).valor)
    (hmax : ∀ r, r < size → (picos_locales layer_size size basura st r).valor ≤
      (picos_locales layer_size size basura st r0).valor)
    (hfirst : ∀ r, r < r0 → (picos_locales layer_size size basura st r).valor <
      (picos_locales layer_size size basura st r0).valor) :
    (reduce_maxloc size (picos_locales layer_size size basura st)).valor =
      (picos_locales layer_size size basura st r0).valor ∧
    (reduce_maxloc size (picos_locales layer_size size basura st)).posicion =
      (picos_locales layer_size size basura st r0).posicion := by
  have hinv := reduce_inv (picos_locales layer_size size basura st) r0 (size - 1)
    (fun r hr => hmax r (by omega)) hfirst
    (by
      intro r h1 _ heq
      have hp0 := pico_local_posicion r0 size (local_layer_size layer_size size r0)
        (desplazamiento layer_size size r0) (st r0).miniLayer (basura r0) hpos
      have hp1 := pico_local_posicion r size (local_layer_size layer_size size r)
        (desplazamiento layer_size size r) (st r).miniLayer (basura r)
        (by
          have h := heq
          unfold picos_locales at h
          rw [h]
          exact hpos)
      have hm := desplazamiento_mono layer_size size h1
      unfold picos_locales
      omega)
  unfold reduce_maxloc
  rw [hinv.2 (by omega)]
  exact ⟨rfl, rfl⟩

/-- An instance of `desempate_reduccion`: workers 0 and 1 both report the
value 5 (at positions 1 and 2); the global record carries position 1. -/
theorem desempate_reduccion_testigo :
    (reduce_maxloc 2 (picos_locales 4 2 (basura_ejemplo 0) capas_empate)).valor =
      (picos_locales 4 2 (basura_ejemplo 0) capas_empate 0).valor ∧
    (reduce_maxloc 2 (picos_locales 4 2 (basura_ejemplo 0) capas_empate)).posicion =
      (picos_locales 4 2 (basura_ejemplo 0) capas_empate 0).posicion := by
  have h0 : picos_locales 4 2 (basura_ejemplo 0) capas_empate 0 =
      { valor := 5, posicion := 1 } := by
    unfold picos_locales
    rw [pico_local_exacto _ _ _ _ _ _ (by decide)]
    simp [ini_pico, fin_pico, local_layer_size, desplazamiento,
      compara, capas_empate, List.range']
  have h1 : picos_locales 4 2 (basura_ejemplo 0) capas_empate 1 =
      { valor := 5, posicion := 2 } := by
    unfold picos_locales
    rw [pico_local_exacto _ _ _ _ _ _ (by decide)]
    simp [ini_pico, fin_pico, local_layer_size, desplazamiento,
      compara, capas_empate, List.range']
  refine desempate_reduccion 4 2 (basura_ejemplo 0) capas_empate 0 (by decide) ?_ ?_ ?_
  · rw [h0]
    norm_num
  · intro r hr
    interval_cases r
    · exact le_refl _
    · rw [h0, h1]
  · intro r hr
    omega

end Reduccion

/-! ## The bombardment -/

section Deposito

variable {α : Type} [LinearOrderedField α]

/-- In exact arithmetic the radius `1000000 * energia^2` is the integer
`e_raw^2`. -/
theorem radio_exacto (e : Int) :
    (1000000 : α) * (energia e * energia e) = ((e * e : Int) : α) := by
  unfold energia
  push_cast
  field_simp
  ring

theorem deposita_pos (tabla : Nat → α) (umbral e : α) (posicion : Int) (off : Nat)
    (m : Nat → α) (k : Nat)
    (h : e / tabla (Int.natAbs (posicion - ((k : Int) + off))) ≥ umbral) :
    deposita tabla umbral e posicion off m k =
      Function.update m k (m k + e / tabla (Int.natAbs (posicion - ((k : Int) + off)))) := by
  unfold deposita
  rw [if_pos h]

theorem deposita_neg (tabla : Nat → α) (umbral e : α) (posicion : Int) (off : Nat)
    (m : Nat → α) (k : Nat)
    (h : ¬ e / tabla (Int.natAbs (posicion - ((k : Int) + off))) ≥ umbral) :
    deposita tabla umbral e posicion off m k = m := by
  unfold deposita
  rw [if_neg h]

/-- The deposit loop over the indices `a .. a+n-1`, cell by cell. -/
theorem foldl_deposita_apply (tabla : Nat → α) (umbral e : α) (posicion : Int) (off : Nat)
    (a n : Nat) (m : Nat → α) (j : Nat) :
    ((List.range' a n).foldl (deposita tabla umbral e posicion off) m) j =
      if a ≤ j ∧ j < a + n ∧
          e / tabla (Int.natAbs (posicion - ((j : Int) + off))) ≥ umbral then
        m j + e / tabla (Int.natAbs (posicion - ((j : Int) + off)))
      else m j := by
  induction n with
  | zero =>
    rw [if_neg (by omega)]
    rfl
  | succ n ih =>
    rw [List.range'_concat, List.foldl_append]
    simp only [List.foldl_cons, List.foldl_nil, Nat.one_mul]
    by_cases hc : e / tabla (Int.natAbs (posicion - (((a + n : Nat) : Int) + off))) ≥ umbral
    · rw [deposita_pos _ _ _ _ _ _ _ hc]
      by_cases hj : j = a + n
      · subst hj
        rw [Function.update_same, ih, if_neg (by omega), if_pos ⟨by omega, by omega, hc⟩]
      · rw [Function.update_noteq hj, ih]
        by_cases h : a ≤ j ∧ j < a + n ∧
            e / tabla (Int.natAbs (posicion - ((j : Int) + off))) ≥ umbral
        · rw [if_pos h, if_pos ⟨h.1, by omega, h.2.2⟩]
        · rw [if_neg h, if_neg (fun h' => h ⟨h'.1, by omega, h'.2.2⟩)]
    · rw [deposita_neg _ _ _ _ _ _ _ hc, ih]
      by_cases hj : j = a + n
      · subst hj
        rw [if_neg (by omega), if_neg (fun h => hc h.2.2)]
      · by_cases h : a ≤ j ∧ j < a + n ∧
            e / tabla (Int.natAbs (posicion - ((j : Int) + off))) ≥ umbral
        · rw [if_pos h, if_pos ⟨h.1, by omega, h.2.2⟩]
        · rw [if_neg h, if_neg (fun h' => h ⟨h'.1, by omega, h'.2.2⟩)]

end Deposito

section Bombardeo

variable {α : Type} [LinearOrderedField α] [FloorRing α]

/-- The first index of the deposit loop, as an integer. -/
theorem floor_ini_bombardeo (posicion e : Int) (off len : Nat) :
    ⌊(ini_bombardeo posicion (energia e : α) off len)⌋ =
      if posicion + 1 - e * e < (off : Int) + len - 1 then
        (if (off : Int) ≤ posicion + 1 - e * e then posicion + 1 - e * e - off else 0)
      else (len : Int) := by
  unfold ini_bombardeo
  simp only [radio_exacto, ← Int.cast_sub, Int.cast_lt, ge_iff_le, Int.cast_le]
  split_ifs <;> first | exact Int.floor_intCast _ | exact Int.floor_zero

/-- The bound of the deposit loop, as an integer. -/
theorem ceil_fin_bombardeo (posicion e : Int) (off len : Nat) :
    ⌈(fin_bombardeo posicion (energia e : α) off len)⌉ =
      if posicion + e * e < (off : Int) + len - 1 then
        (if (off : Int) ≤ posicion + e * e then posicion + e * e - off else 0)
      else (len : Int) := by
  unfold fin_bombardeo
  simp only [radio_exacto, ← Int.cast_sub, ← Int.cast_add, Int.cast_lt, ge_iff_le, Int.cast_le]
  split_ifs <;> first | exact Int.ceil_intCast _ | exact Int.ceil_zero

/-- One particle, cell by cell: the cell `j` receives the attenuated energy
when `j` is inside the loop bounds and the value reaches the threshold. -/
theorem bombardea_particula_apply (tabla : Nat → α) (umbral : α) (off len : Nat)
    (m : Nat → α) (posicion e : Int) (j : Nat) :
    bombardea_particula tabla umbral off len m (posicion, e) j =
      if (⌊ini_bombardeo posicion (energia e : α) off len⌋ ≤ (j : Int) ∧
          (j : Int) < ⌈fin_bombardeo posicion (energia e : α) off len⌉) ∧
          energia e / tabla (Int.natAbs (posicion - ((j : Int) + off))) ≥ umbral then
        m j + energia e / tabla (Int.natAbs (posicion - ((j : Int) + off)))
      else m j := by
  unfold bombardea_particula
  simp only []
  rw [foldl_deposita_apply]
  apply if_congr _ rfl rfl
  constructor
  · rintro ⟨h1, h2, h3⟩
    exact ⟨⟨by omega, by omega⟩, h3⟩
  · rintro ⟨⟨h1, h2⟩, h3⟩
    exact ⟨by omega, by omega, h3⟩

/-- Lowering the threshold never lowers a cell, one particle. -/
theorem bombardea_particula_mono (tabla : Nat → α) (htabla : ∀ i, 0 ≤ tabla i) (t t' : α)
    (ht : t' ≤ t) (off len : Nat) (m m' : Nat → α) (hm : ∀ j, m j ≤ m' j) (p : Int × Int)
    (hp : 0 ≤ p.2) (j : Nat) :
    bombardea_particula tabla t off len m p j ≤ bombardea_particula tabla t' off len m' p j := by
  obtain ⟨posicion, e⟩ := p
  have hc : 0 ≤ (energia e : α) / tabla (Int.natAbs (posicion - ((j : Int) + off))) := by
    apply div_nonneg _ (htabla _)
    unfold energia
    exact div_nonneg (Int.cast_nonneg.mpr hp) (by norm_num)
  rw [bombardea_particula_apply, bombardea_particula_apply]
  by_cases h : (⌊ini_bombardeo posicion (energia e : α) off len⌋ ≤ (j : Int) ∧
      (j : Int) < ⌈fin_bombardeo posicion (energia e : α) off len⌉) ∧
      energia e / tabla (Int.natAbs (posicion - ((j : Int) + off))) ≥ t
  · rw [if_pos h, if_pos ⟨h.1, le_trans ht h.2⟩]
    exact add_le_add_right (hm j) _
  · rw [if_neg h]
    split_ifs
    · exact le_trans (hm j) (le_add_of_nonneg_right hc)
    · exact hm j

/-- Lowering the threshold never lowers a cell, whole storm. -/
theorem bombardeo_mono (tabla : Nat → α) (htabla : ∀ i, 0 ≤ tabla i) (t t' : α)
    (ht : t' ≤ t) (off len : Nat) (s : Storm) (hs : ∀ p ∈ s, 0 ≤ p.2) (m m' : Nat → α)
    (hm : ∀ j, m j ≤ m' j) (j : Nat) :
    bombardeo tabla t off len m s j ≤ bombardeo tabla t' off len m' s j := by
  induction s generalizing m m' j with
  | nil => exact hm j
  | cons p ps ih =>
    unfold bombardeo
    rw [List.foldl_cons, List.foldl_cons]
    exact ih (fun q hq => hs q (List.mem_cons_of_mem _ hq)) _ _
      (fun i => bombardea_particula_mono tabla htabla t t' ht off len m m' hm p
        (hs p (List.mem_cons_self _ _)) i) j

/-- C9. Threshold monotonicity: with the threshold as a parameter, for every
starting layer, every storm with non-negative energies and thresholds
`t' ≤ t`, each cell after bombardment with `t'` is at least the same cell
after bombardment with `t`. -/
theorem umbral_monotono (t t' : ℝ) (ht : t' ≤ t) (off len : Nat) (m : Nat → ℝ) (s : Storm)
    (hs : ∀ p ∈ s, 0 ≤ p.2) (k : Nat) :
    bombardeo (raiz Real.sqrt) t off len m s k ≤ bombardeo (raiz Real.sqrt) t' off len m s k :=
  bombardeo_mono (raiz Real.sqrt) (fun _ => Real.sqrt_nonneg _) t t' ht off len s hs m m
    (fun _ => le_refl _) k

/-- Witness for C9: thresholds `0 ≤ 0.001`, one particle of raw energy 2 at
position 1, worker range `[0, 4)`. -/
theorem umbral_monotono_testigo :
    bombardeo (raiz Real.sqrt) (UMBRAL : ℝ) 0 4 (fun _ => 0) [(1, 2)] 1 ≤
      bombardeo (raiz Real.sqrt) (0 : ℝ) 0 4 (fun _ => 0) [(1, 2)] 1 :=
  umbral_monotono UMBRAL 0 (by unfold UMBRAL; norm_num) 0 4 (fun _ => 0) [(1, 2)]
    (by decide) 1

/-- With the real square-root table and a non-negative raw energy `e`, the
attenuated value at distance `d` reaches `UMBRAL` exactly when `d + 1 ≤ e^2`. -/
theorem umbral_iff (e : Int) (he : 0 ≤ e) (d : Nat) :
    (energia e : ℝ) / raiz Real.sqrt d ≥ UMBRAL ↔ (d : Int) + 1 ≤ e * e := by
  unfold energia raiz UMBRAL
  have hs : 0 < Real.sqrt ((((d + 1 : Nat) : Int) : ℝ)) := Real.sqrt_pos.mpr (by positivity)
  have he' : (0 : ℝ) ≤ (e : ℝ) := Int.cast_nonneg.mpr he
  rw [ge_iff_le, le_div_iff₀ hs]
  have h1 : (1 / 1000 * Real.sqrt ((((d + 1 : Nat) : Int) : ℝ)) ≤ (e : ℝ) / 1000) ↔
      Real.sqrt ((((d + 1 : Nat) : Int) : ℝ)) ≤ (e : ℝ) := by
    constructor <;> intro h <;> linarith
  rw [h1, Real.sqrt_le_left he']
  constructor
  · intro h
    have h2 : (((d : Int) + 1 : Int) : ℝ) ≤ ((e * e : Int) : ℝ) := by
      push_cast
      push_cast at h
      nlinarith
    exact_mod_cast h2
  · intro h
    have h2 : (((d : Int) + 1 : Int) : ℝ) ≤ ((e * e : Int) : ℝ) := by exact_mod_cast h
    push_cast at h2
    push_cast
    nlinarith

/-- What the deposit loop does achieve: a local cell `j` whose global index
lies in the window `[posicion + 1 - e^2, posicion + e^2)` receives the
attenuated energy, provided the window does not start exactly on the last
cell of the worker. -/
theorem deposito_en_ventana (off len : Nat) (m : Nat → ℝ) (posicion e : Int) (j : Nat)
    (he : 0 ≤ e) (hj : j < len)
    (hini : posicion + 1 - e * e ≤ (j : Int) + off) (hfin : (j : Int) + off < posicion + e * e)
    (hborde : posicion + 1 - e * e ≠ (off : Int) + len - 1) :
    bombardea_particula (raiz Real.sqrt) UMBRAL off len m (posicion, e) j =
      m j + energia e / raiz Real.sqrt (Int.natAbs (posicion - ((j : Int) + off))) := by
  rw [bombardea_particula_apply, floor_ini_bombardeo, ceil_fin_bombardeo, if_pos]
  refine ⟨⟨?_, ?_⟩, (umbral_iff e he _).mpr ?_⟩
  · split_ifs <;> omega
  · split_ifs <;> omega
  · omega

/-- C5 at the failing input: worker 0 of two (`layer_size = 12`: offset 0,
length 6) and the particle `(posicion 5, raw energy 1)`. The cell `g = 5` is
in the worker's range and in the window `[5, 6)`, the attenuated energy there
is `0.001`, and the code leaves the cell at `0`. -/
theorem deposito_perdido :
    desplazamiento 12 2 0 = 0 ∧ local_layer_size 12 2 0 = 6 ∧
    bombardea_particula (raiz Real.sqrt) (UMBRAL : ℝ) (desplazamiento 12 2 0)
      (local_layer_size 12 2 0) (fun _ => 0) (5, 1) 5 = 0 ∧
    (energia 1 : ℝ) / Real.sqrt (((Int.natAbs (5 - ((5 : Nat) : Int)) + 1 : Nat) : Int) : ℝ) =
      1 / 1000 := by
  refine ⟨by decide, by decide, ?_, ?_⟩
  · rw [bombardea_particula_apply, floor_ini_bombardeo]
    simp [desplazamiento, local_layer_size]
  · simp [energia]

/-- One particle with the real square-root table and a non-negative raw
energy, cell by cell, with integer loop bounds and the threshold test in
closed form. -/
theorem bombardea_particula_real (off len : Nat) (m : Nat → ℝ) (posicion e : Int) (j : Nat)
    (he : 0 ≤ e) :
    bombardea_particula (raiz Real.sqrt) UMBRAL off len m (posicion, e) j =
      if (((if posicion + 1 - e * e < (off : Int) + len - 1 then
            (if (off : Int) ≤ posicion + 1 - e * e then posicion + 1 - e * e - off else 0)
          else (len : Int)) ≤ (j : Int)) ∧
          ((j : Int) < (if posicion + e * e < (off : Int) + len - 1 then
            (if (off : Int) ≤ posicion + e * e then posicion + e * e - off else 0)
          else (len : Int)))) ∧
          (Int.natAbs (posicion - ((j : Int) + off)) : Int) + 1 ≤ e * e then
        m j + energia e / raiz Real.sqrt (Int.natAbs (posicion - ((j : Int) + off)))
      else m j := by
  rw [bombardea_particula_apply]
  apply if_congr _ rfl rfl
  rw [floor_ini_bombardeo, ceil_fin_bombardeo, umbral_iff e he]

end Bombardeo

/-! ## The whole kernel on concrete inputs -/

section Escenarios

/-- The kernel with one worker on `layer_size = 12` and the storm `[(5, 1)]`:
the deposit `0.001` lands on cell 5 and the global peak is `1/3000` at
position 4. -/
theorem kernel_un_trabajador :
    kernel (raiz Real.sqrt) (UMBRAL : ℝ) 12 1 basura_ejemplo [[(5, 1)]] =
      [{ valor := 1 / 3000, posicion := 4 }] := by
  have hb : ∀ j, j < 12 →
      (bombardeo_todos (raiz Real.sqrt) (UMBRAL : ℝ) 12 1 capas_cero [(5, 1)] 0).miniLayer j =
        if j = 5 then 1 / 1000 else 0 := by
    intro j hj
    unfold bombardeo_todos bombardeo
    simp only [List.foldl_cons, List.foldl_nil]
    rw [bombardea_particula_real _ _ _ _ _ _ (by decide)]
    interval_cases j <;> simp [desplazamiento, local_layer_size, capas_cero, energia, raiz]
  have hrel : ∀ k, k < 12 →
      (tormenta (raiz Real.sqrt) (UMBRAL : ℝ) 12 1 capas_cero [(5, 1)] 0).miniLayer k =
        if k = 4 ∨ k = 5 ∨ k = 6 then 1 / 3000 else 0 := by
    intro k hk
    unfold tormenta relaja_todos
    rw [relaja_eq_spec _ _ _ _ _ _ _ (by simpa [local_layer_size] using hk)]
    interval_cases k <;> norm_num [relajacion_spec, local_layer_size, hb]
  have hp : picos_locales 12 1 (basura_ejemplo 0)
      (tormenta (raiz Real.sqrt) (UMBRAL : ℝ) 12 1 capas_cero [(5, 1)]) 0 =
      { valor := 1 / 3000, posicion := 4 } := by
    unfold picos_locales
    rw [pico_local_exacto _ _ _ _ _ _ (by decide)]
    norm_num [ini_pico, fin_pico, local_layer_size,
      desplazamiento, List.range', compara, hrel]
  simp only [kernel, kernel_desde, reduce_maxloc]
  simp [List.range', hp]

/-- The kernel with two workers on the same input: no cell receives the
deposit and the global peak value is `0`. -/
theorem kernel_dos_trabajadores :
    kernel (raiz Real.sqrt) (UMBRAL : ℝ) 12 2 basura_ejemplo [[(5, 1)]] =
      [{ valor := 0, posicion := 3 }] := by
  have hb : ∀ rank, rank < 2 → ∀ j, j < 6 →
      (bombardeo_todos (raiz Real.sqrt) (UMBRAL : ℝ) 12 2 capas_cero [(5, 1)] rank).miniLayer j =
        0 := by
    intro rank hr j hj
    unfold bombardeo_todos bombardeo
    simp only [List.foldl_cons, List.foldl_nil]
    rw [bombardea_particula_real _ _ _ _ _ _ (by decide)]
    interval_cases rank <;> interval_cases j <;>
      simp [desplazamiento, local_layer_size, capas_cero]
  have hrel : ∀ rank, rank < 2 → ∀ k, k < 6 →
      (tormenta (raiz Real.sqrt) (UMBRAL : ℝ) 12 2 capas_cero [(5, 1)] rank).miniLayer k = 0 := by
    intro rank hr k hk
    have hlen : local_layer_size 12 2 rank = 6 := by
      unfold local_layer_size
      simp
    unfold tormenta relaja_todos
    rw [relaja_eq_spec _ _ _ _ _ _ _ (by rw [hlen]; exact hk)]
    interval_cases rank <;> interval_cases k <;>
      norm_num [relajacion_spec, local_layer_size, halo_ini, halo_fin, hb]
  have hp : ∀ rank, rank < 2 → picos_locales 12 2 (basura_ejemplo 0)
      (tormenta (raiz Real.sqrt) (UMBRAL : ℝ) 12 2 capas_cero [(5, 1)]) rank =
      { valor := 0, posicion := basura_ejemplo 0 rank } := by
    intro rank hr
    unfold picos_locales
    rw [pico_local_exacto _ _ _ _ _ _ (by interval_cases rank <;> decide)]
    interval_cases rank <;>
      norm_num [ini_pico, fin_pico,
        local_layer_size, desplazamiento, List.range', compara, hrel]
  simp only [kernel, kernel_desde, reduce_maxloc]
  simp [List.range', hp, maxloc, basura_ejemplo]

/-- C1 at the failing input: `layer_size = 12`, one storm with the particle
`(posicion 5, raw energy 1)`. With one worker the global peak is `1/3000` at
position 4; with two workers cell 5 is the last cell of worker 0, its deposit
is lost and the global peak value is `0`. -/
theorem un_trabajador_difiere :
    (kernel (raiz Real.sqrt) (UMBRAL : ℝ) 12 1 basura_ejemplo [[(5, 1)]]).map Registro.valor =
      [1 / 3000] ∧
    (kernel (raiz Real.sqrt) (UMBRAL : ℝ) 12 2 basura_ejemplo [[(5, 1)]]).map Registro.valor =
      [0] ∧
    (kernel (raiz Real.sqrt) (UMBRAL : ℝ) 12 2 basura_ejemplo [[(5, 1)]]).map Registro.valor ≠
      (kernel (raiz Real.sqrt) (UMBRAL : ℝ) 12 1 basura_ejemplo [[(5, 1)]]).map Registro.valor := by
  rw [kernel_un_trabajador, kernel_dos_trabajadores]
  norm_num

/-- The attenuated energy of the particle `(5, 1000)` at the global index `g`. -/
theorem atenuacion_escenario (g : Nat) :
    (energia 1000 : ℝ) / raiz Real.sqrt (Int.natAbs (5 - ((g : Int) + (0 : Nat)))) =
      1 / Real.sqrt (|(5 : ℝ) - (g : ℝ)| + 1) := by
  have h1 : (energia 1000 : ℝ) = 1 := by
    unfold energia
    norm_num
  have h2 : ((((Int.natAbs (5 - ((g : Int) + (0 : Nat))) + 1 : Nat) : Int) : ℝ)) =
      |(5 : ℝ) - (g : ℝ)| + 1 := by
    push_cast
    simp
  unfold raiz
  rw [h1, h2]

/-- The bombardment of the scenario from any layer: every cell `g < 10`
receives `1 / sqrt(|5 - g| + 1)`. -/
theorem bombardeo_escenario (m : Nat → ℝ) (g : Nat) (hg : g < 10) :
    bombardeo (raiz Real.sqrt) (UMBRAL : ℝ) 0 10 m [(5, 1000)] g =
      m g + 1 / Real.sqrt (|(5 : ℝ) - (g : ℝ)| + 1) := by
  unfold bombardeo
  simp only [List.foldl_cons, List.foldl_nil]
  rw [deposito_en_ventana 0 10 m 5 1000 g (by decide) hg (by omega) (by omega) (by decide),
    atenuacion_escenario]

/-- The values `1 / sqrt(d + 1)` decrease strictly with `d`. -/
theorem atenuacion_decrece (x y : ℝ) (hx : 0 ≤ x) (hxy : x < y) :
    1 / Real.sqrt (y + 1) < 1 / Real.sqrt (x + 1) :=
  one_div_lt_one_div_of_lt (Real.sqrt_pos.mpr (by linarith))
    (Real.sqrt_lt_sqrt (by linarith) (by linarith))

/-- C10. Concrete scenario: `layer_size = 10`, one worker, one storm with the
particle `(posicion 5, raw energy 1000)`. The bombardment adds `1` at index 5
and `1 / sqrt(|5 - g| + 1)` at every index `g` of `0..9`, and the reported
global peak position is 5. -/
theorem escenario_pico_en_5 (basura : Nat → Nat → Int) (m : Nat → ℝ) :
    desplazamiento 10 1 0 = 0 ∧ local_layer_size 10 1 0 = 10 ∧
    bombardeo (raiz Real.sqrt) (UMBRAL : ℝ) (desplazamiento 10 1 0) (local_layer_size 10 1 0)
      m [(5, 1000)] 5 = m 5 + 1 ∧
    (∀ g, g < 10 →
      bombardeo (raiz Real.sqrt) (UMBRAL : ℝ) (desplazamiento 10 1 0) (local_layer_size 10 1 0)
        m [(5, 1000)] g = m g + 1 / Real.sqrt (|(5 : ℝ) - (g : ℝ)| + 1)) ∧
    (kernel (raiz Real.sqrt) (UMBRAL : ℝ) 10 1 basura [[(5, 1000)]]).map Registro.posicion =
      [5] := by
  have hoff : desplazamiento 10 1 0 = 0 := by decide
  have hlen : local_layer_size 10 1 0 = 10 := by decide
  refine ⟨hoff, hlen, ?_, ?_, ?_⟩
  · rw [hoff, hlen, bombardeo_escenario m 5 (by decide)]
    norm_num
  · intro g hg
    rw [hoff, hlen, bombardeo_escenario m g hg]
  · -- the post-bombardment layer
    have hb : ∀ g, g < 10 →
        (bombardeo_todos (raiz Real.sqrt) (UMBRAL : ℝ) 10 1 capas_cero [(5, 1000)] 0).miniLayer g =
          1 / Real.sqrt (|(5 : ℝ) - (g : ℝ)| + 1) := by
      intro g hg
      unfold bombardeo_todos
      simp only []
      rw [hoff, hlen, bombardeo_escenario _ g hg]
      simp [capas_cero]
    -- the relaxed layer at the scanned indices
    have hrel : ∀ k, 1 ≤ k → k < 9 →
        (tormenta (raiz Real.sqrt) (UMBRAL : ℝ) 10 1 capas_cero [(5, 1000)] 0).miniLayer k =
          (1 / Real.sqrt (|(5 : ℝ) - ((k - 1 : Nat) : ℝ)| + 1) +
            1 / Real.sqrt (|(5 : ℝ) - (k : ℝ)| + 1) +
            1 / Real.sqrt (|(5 : ℝ) - ((k + 1 : Nat) : ℝ)| + 1)) / 3 := by
      intro k h1 h9
      unfold tormenta relaja_todos
      rw [relaja_eq_spec _ _ _ _ _ _ _ (by rw [hlen]; omega)]
      unfold relajacion_spec
      rw [hlen, if_neg (by omega), if_neg (by omega), if_neg (by omega), if_neg (by omega),
        if_neg (by omega), hb _ (by omega), hb _ (by omega), hb _ (by omega)]
    -- the six attenuation values
    have d01 := atenuacion_decrece 0 1 (by norm_num) (by norm_num)
    have d12 := atenuacion_decrece 1 2 (by norm_num) (by norm_num)
    have d23 := atenuacion_decrece 2 3 (by norm_num) (by norm_num)
    have d34 := atenuacion_decrece 3 4 (by norm_num) (by norm_num)
    have d45 := atenuacion_decrece 4 5 (by norm_num) (by norm_num)
    have p5 : 0 < 1 / Real.sqrt ((5 : ℝ) + 1) :=
      one_div_pos.mpr (Real.sqrt_pos.mpr (by norm_num))
    have hR : ∀ k, 1 ≤ k → k < 9 → k ≠ 5 →
        (tormenta (raiz Real.sqrt) (UMBRAL : ℝ) 10 1 capas_cero [(5, 1000)] 0).miniLayer k <
        (tormenta (raiz Real.sqrt) (UMBRAL : ℝ) 10 1 capas_cero [(5, 1000)] 0).miniLayer 5 := by
      intro k h1 h9 h5
      rw [hrel k h1 h9, hrel 5 (by decide) (by decide)]
      interval_cases k <;>
        first
        | exact absurd rfl h5
        | (norm_num at d01 d12 d23 d34 d45 p5 ⊢
           linarith)
    have hR5 : 0 <
        (tormenta (raiz Real.sqrt) (UMBRAL : ℝ) 10 1 capas_cero [(5, 1000)] 0).miniLayer 5 := by
      rw [hrel 5 (by decide) (by decide)]
      positivity
    -- the scan
    have hini : ini_pico 0 = 1 := rfl
    have hfin : Int.toNat (fin_pico 0 1 10) - ini_pico 0 = 8 := by decide
    have hpos : (picos_locales 10 1 (basura 0)
        (tormenta (raiz Real.sqrt) (UMBRAL : ℝ) 10 1 capas_cero [(5, 1000)]) 0).posicion = 5 := by
      unfold picos_locales
      rw [pico_local_exacto _ _ _ _ _ _ (by decide), hoff, hlen, hfin, hini]
      rcases escaneo_inv 0
          (tormenta (raiz Real.sqrt) (UMBRAL : ℝ) 10 1 capas_cero [(5, 1000)] 0).miniLayer
          { valor := 0, posicion := basura 0 0 } 1 8 with
        ⟨_, hle⟩ | ⟨k0, hk0a, hk0b, _, hp, _, _, hall⟩
      · exact absurd (hle 5 (by decide) (by decide)) (not_le.mpr hR5)
      · rw [hp]
        by_cases h5 : k0 = 5
        · rw [h5]
          rfl
        · exact absurd (hall 5 (by decide) (by decide))
            (not_le.mpr (hR k0 hk0a (by omega) h5))
    simp only [kernel, kernel_desde, reduce_maxloc]
    simp [List.range', hpos]

end Escenarios

/-! ## More on the partition -/

section ParticionOrden

/-- C11, as the code has it. For `1 ≤ size ≤ layer_size` the offsets are
strictly increasing: `offset(rank) < offset(rank + 1)` for `rank + 1 < size`. -/
theorem desplazamientos_crecen (layer_size size rank : Nat) (hW : 1 ≤ size)
    (hle : size ≤ layer_size) (_hr : rank + 1 < size) :
    desplazamiento layer_size size rank < desplazamiento layer_size size (rank + 1) := by
  have hp := local_layer_size_pos layer_size size rank hW hle
  rw [desplazamiento_sig]
  omega

/-- Witness for C11: `layer_size = 10`, three workers, ranks 0 and 1. -/
theorem desplazamientos_crecen_testigo : desplazamiento 10 3 0 < desplazamiento 10 3 (0 + 1) :=
  desplazamientos_crecen 10 3 0 (by decide) (by decide) (by decide)

/-- C11 as stated fails when there are more workers than cells: with
`layer_size = 1` and 3 workers the ranks 1 and 2 have empty ranges and the
same offset 1. -/
theorem desplazamientos_repetidos :
    (1 ≤ 1 ∧ 1 ≤ 3 ∧ 1 + 1 < 3) ∧
    desplazamiento 1 3 1 = 1 ∧ desplazamiento 1 3 (1 + 1) = 1 ∧
    ¬ (desplazamiento 1 3 1 < desplazamiento 1 3 (1 + 1)) := by
  decide

/-- Truncated division and remainder of a non-positive dividend `-a` by a
positive divisor. -/
theorem tdiv_tmod_neg (a size : Int) (ha : 0 ≤ a) (hW : 1 ≤ size) :
    Int.tdiv (-a) size = -(a / size) ∧ Int.tmod (-a) size = -(a % size) := by
  have hd : Int.tdiv (-a) size = -(a / size) := by
    rw [Int.neg_tdiv, Int.tdiv_eq_ediv ha (by omega)]
  refine ⟨hd, ?_⟩
  have h1 := Int.tmod_add_tdiv (-a) size
  have h2 := Int.emod_add_ediv a size
  rw [hd] at h1
  linarith

/-- C13, as the code has it. Lines 153-167 validate nothing, and a
`layer_size < 1` is rejected only through the allocation check: for a C `int`
`layer_size < 1`, `1 ≤ size` and `0 ≤ rank`, the length is
`layer_size / size` (truncated), which is at most 0. When
`layer_size ≤ -size` the length is negative, both allocation requests are
above `PTRDIFF_MAX` bytes and the run halts with the fatal error. When
`-size < layer_size` the length is `0`, the run halts only if a `malloc(0)`
returns `NULL`, and otherwise it goes on with the pair `(layer_size, 0)`. -/
theorem particion_sin_validacion (miniLayer_sin_memoria layer_copy_sin_memoria : Nat → Bool)
    (layer_size size rank : Int) (hL : layer_size < 1) (hmin : -2147483648 ≤ layer_size)
    (hW : 1 ≤ size) (hr0 : 0 ≤ rank) :
    local_layer_size_int layer_size size rank = Int.tdiv layer_size size ∧
    local_layer_size_int layer_size size rank ≤ 0 ∧
    (layer_size ≤ -size →
      local_layer_size_int layer_size size rank < 0 ∧
      particion_reserva miniLayer_sin_memoria layer_copy_sin_memoria layer_size size rank =
        none) ∧
    (-size < layer_size →
      local_layer_size_int layer_size size rank = 0 ∧
      particion_reserva miniLayer_sin_memoria layer_copy_sin_memoria layer_size size rank =
        if miniLayer_sin_memoria 0 || layer_copy_sin_memoria 0 then none
        else some (layer_size, 0)) := by
  obtain ⟨a, rfl⟩ : ∃ a : Int, layer_size = -a := ⟨-layer_size, by omega⟩
  have ha : 0 ≤ a := by omega
  obtain ⟨hd, hm⟩ := tdiv_tmod_neg a size ha hW
  have hq0 : 0 ≤ a / size := Int.ediv_nonneg ha (by omega)
  have hr1 : 0 ≤ a % size := Int.emod_nonneg a (by omega)
  have hlen : local_layer_size_int (-a) size rank = -(a / size) := by
    unfold local_layer_size_int
    rw [hd, hm, if_neg (by omega)]
  refine ⟨by rw [hlen, hd], by rw [hlen]; omega, ?_, ?_⟩
  · intro hle
    have hq1 : 1 ≤ a / size := by
      apply Int.le_ediv_of_mul_le (by omega)
      omega
    have hq2 : a / size ≤ a := Int.ediv_le_self size ha
    refine ⟨by rw [hlen]; omega, ?_⟩
    have hb : PTRDIFF_MAX < bytes_reserva (-(a / size)) := by
      unfold PTRDIFF_MAX bytes_reserva
      omega
    unfold particion_reserva malloc_null
    rw [hlen, if_pos]
    simp [hb]
  · intro hlt
    have hq : a / size = 0 := Int.ediv_eq_zero_of_lt ha (by omega)
    have hr : a % size = a := Int.emod_eq_of_lt ha (by omega)
    have hoff : desplazamiento_int (-a) size rank = -a := by
      unfold desplazamiento_int
      rw [hd, hm, hq, hr]
      split_ifs <;> omega
    have hb : bytes_reserva 0 = 0 := by
      unfold bytes_reserva
      omega
    have hp : ¬ PTRDIFF_MAX < 0 := by
      unfold PTRDIFF_MAX
      omega
    refine ⟨by rw [hlen, hq]; rfl, ?_⟩
    unfold particion_reserva malloc_null
    rw [hlen, hoff, hq]
    simp [hb, hp]

/-- Witness for C13: `layer_size = -5` on two workers halts at the allocation
check (rank 1, length -2), whatever the system would grant. -/
theorem particion_sin_validacion_testigo :
    ((-5 : Int) < 1 ∧ (-2147483648 : Int) ≤ -5 ∧ (1 : Int) ≤ 2 ∧ (0 : Int) ≤ 1) ∧
    local_layer_size_int (-5) 2 1 = Int.tdiv (-5) 2 ∧
    local_layer_size_int (-5) 2 1 ≤ 0 ∧
    ((-5 : Int) ≤ -2 →
      local_layer_size_int (-5) 2 1 < 0 ∧
      particion_reserva (fun _ => false) (fun _ => false) (-5) 2 1 = none) ∧
    (-(2 : Int) < -5 →
      local_layer_size_int (-5) 2 1 = 0 ∧
      particion_reserva (fun _ => false) (fun _ => false) (-5) 2 1 =
        if (fun _ => false) 0 || (fun _ => false) 0 then none else some (-5, 0)) :=
  ⟨by decide,
    particion_sin_validacion (fun _ => false) (fun _ => false) (-5) 2 1 (by decide) (by decide)
      (by decide) (by decide)⟩

/-- On natural inputs below `2^31`, and when the system grants both requests,
the pair of `particion_reserva` is the one of `desplazamiento` and
`local_layer_size`. -/
theorem particion_reserva_nat (layer_size size rank : Nat) (hL : layer_size < 2147483648) :
    particion_reserva (fun _ => false) (fun _ => false) layer_size size rank =
      some ((desplazamiento layer_size size rank : Int),
        (local_layer_size layer_size size rank : Int)) := by
  have hlen : local_layer_size_int layer_size size rank =
      (local_layer_size layer_size size rank : Int) := by
    unfold local_layer_size_int local_layer_size
    simp only [← Int.ofNat_tdiv, ← Int.ofNat_tmod]
    split_ifs <;> omega
  have hoff : desplazamiento_int layer_size size rank =
      (desplazamiento layer_size size rank : Int) := by
    unfold desplazamiento_int desplazamiento
    simp only [← Int.ofNat_tdiv, ← Int.ofNat_tmod]
    split_ifs <;> omega
  have hle : local_layer_size layer_size size rank ≤ layer_size + 1 := by
    unfold local_layer_size
    have := Nat.div_le_self layer_size size
    split_ifs <;> omega
  have hb : ¬ PTRDIFF_MAX < bytes_reserva (local_layer_size layer_size size rank : Int) := by
    unfold PTRDIFF_MAX bytes_reserva
    omega
  unfold particion_reserva malloc_null
  rw [hlen, hoff]
  simp [hb]

/-- C13 as stated fails: with `layer_size = 0` on one worker, and with
`layer_size = -1` on two workers, both allocations are requests of 0 bytes;
when the system grants them the partition yields a pair with length 0 and the
run goes on. -/
theorem configuracion_invalida_aceptada :
    particion_reserva (fun _ => false) (fun _ => false) 0 1 0 = some (0, 0) ∧
    particion_reserva (fun _ => false) (fun _ => false) (-1) 2 0 = some (-1, 0) ∧
    particion_reserva (fun _ => false) (fun _ => false) 0 1 0 ≠ none := by
  decide

end ParticionOrden

/-! ## More on the peak scan -/

section PicoDefecto

/-- The storm `[(1, 0)]` on `layer_size = 4` with two workers: no cell
receives energy, and the record of each worker is `(0, basura)`. -/
theorem picos_sin_deposito (basura : Nat → Int) (rank : Nat) (hr : rank < 2) :
    picos_locales 4 2 basura
      (tormenta (raiz Real.sqrt) (UMBRAL : ℝ) 4 2 capas_cero [(1, 0)]) rank =
      { valor := 0, posicion := basura rank } := by
  have hb : ∀ rank, rank < 2 → ∀ j, j < 2 →
      (bombardeo_todos (raiz Real.sqrt) (UMBRAL : ℝ) 4 2 capas_cero [(1, 0)] rank).miniLayer j =
        0 := by
    intro rank hr j hj
    unfold bombardeo_todos bombardeo
    simp only [List.foldl_cons, List.foldl_nil]
    rw [bombardea_particula_real _ _ _ _ _ _ (by decide)]
    interval_cases rank <;> interval_cases j <;>
      simp [desplazamiento, local_layer_size, capas_cero]
  have hlen : local_layer_size 4 2 rank = 2 := by
    unfold local_layer_size
    simp
  have hrel : ∀ k, k < 2 →
      (tormenta (raiz Real.sqrt) (UMBRAL : ℝ) 4 2 capas_cero [(1, 0)] rank).miniLayer k = 0 := by
    intro k hk
    unfold tormenta relaja_todos
    rw [relaja_eq_spec _ _ _ _ _ _ _ (by rw [hlen]; exact hk)]
    interval_cases rank <;> interval_cases k <;>
      norm_num [relajacion_spec, local_layer_size, halo_ini, halo_fin, hb]
  unfold picos_locales
  apply pico_sin_energia
  intro k _ h2
  have hf := fin_pico_le rank 2 (local_layer_size 4 2 rank)
  rw [hrel k (by omega)]

/-- C12 at the failing input: `layer_size = 4`, two workers, one storm with
the particle `(posicion 1, raw energy 0)`. No cell receives energy, and the
record of each worker has value 0 and, as position, what `local[i].posicion`
held before the scan (`basura`), whatever that is; the first eligible cells of
the two workers are the global positions 1 and 2. -/
theorem pico_por_defecto_indeterminado (basura : Nat → Int) :
    picos_locales 4 2 basura
      (tormenta (raiz Real.sqrt) (UMBRAL : ℝ) 4 2 capas_cero [(1, 0)]) 0 =
      { valor := 0, posicion := basura 0 } ∧
    picos_locales 4 2 basura
      (tormenta (raiz Real.sqrt) (UMBRAL : ℝ) 4 2 capas_cero [(1, 0)]) 1 =
      { valor := 0, posicion := basura 1 } ∧
    ((desplazamiento 4 2 0 + ini_pico 0 : Nat) : Int) = 1 ∧
    ((desplazamiento 4 2 1 + ini_pico 1 : Nat) : Int) = 2 :=
  ⟨picos_sin_deposito basura 0 (by decide), picos_sin_deposito basura 1 (by decide),
    by decide, by decide⟩

/-- C6 at the failing input: `layer_size = 4`, two workers, one storm with
the particle `(posicion 1, raw energy 0)`. Both workers report the value 0,
and the global record carries the smaller of the two values that the fields
`local[i].posicion` held before the scan (`basura 0 0` on worker 0,
`basura 0 1` on worker 1): it is the position reported by worker 0 only when
that one is not the greater. -/
theorem desempate_en_cero (basura : Nat → Nat → Int) :
    kernel (raiz Real.sqrt) (UMBRAL : ℝ) 4 2 basura [[(1, 0)]] =
      [{ valor := 0, posicion := min (basura 0 0) (basura 0 1) }] ∧
    (basura 0 1 < basura 0 0 →
      (reduce_maxloc 2 (picos_locales 4 2 (basura 0)
        (tormenta (raiz Real.sqrt) (UMBRAL : ℝ) 4 2 capas_cero [(1, 0)]))).posicion ≠
      (picos_locales 4 2 (basura 0)
        (tormenta (raiz Real.sqrt) (UMBRAL : ℝ) 4 2 capas_cero [(1, 0)]) 0).posicion) := by
  have h0 := picos_sin_deposito (basura 0) 0 (by decide)
  have h1 := picos_sin_deposito (basura 0) 1 (by decide)
  have hred : reduce_maxloc 2 (picos_locales 4 2 (basura 0)
      (tormenta (raiz Real.sqrt) (UMBRAL : ℝ) 4 2 capas_cero [(1, 0)])) =
      { valor := 0, posicion := min (basura 0 0) (basura 0 1) } := by
    simp [reduce_maxloc, List.range', h0, h1, maxloc]
  constructor
  · simp only [kernel, kernel_desde, hred]
  · intro hlt
    rw [hred, h0]
    simp only []
    rw [min_eq_right (le_of_lt hlt)]
    exact ne_of_lt hlt

end PicoDefecto

/-! ## The blast window and the threshold -/

section Ventana

/-- The square-root table at the distance between `posicion` and `g`. -/
theorem raiz_distancia (posicion g : Int) :
    raiz Real.sqrt (Int.natAbs (posicion - g)) =
      Real.sqrt (|(posicion : ℝ) - (g : ℝ)| + 1) := by
  unfold raiz
  congr 1
  push_cast
  simp

/-- C15. The blast window is exactly the above-threshold set: for a
non-negative raw energy, `energia / sqrt(|posicion - g| + 1) ≥ UMBRAL` holds
exactly when `posicion + 1 - r ≤ g < posicion + r`, with
`r = 1000000 * energia^2`. -/
theorem ventana_es_umbral (posicion e g : Int) (he : 0 ≤ e) :
    (energia e : ℝ) / Real.sqrt (|(posicion : ℝ) - (g : ℝ)| + 1) ≥ UMBRAL ↔
      ((posicion : ℝ) + 1 - 1000000 * (energia e * energia e) ≤ (g : ℝ) ∧
        (g : ℝ) < (posicion : ℝ) + 1000000 * (energia e * energia e)) := by
  rw [← raiz_distancia, umbral_iff e he, radio_exacto]
  constructor
  · intro h
    have h' : posicion + 1 - e * e ≤ g ∧ g < posicion + e * e := by omega
    exact ⟨by exact_mod_cast h'.1, by exact_mod_cast h'.2⟩
  · rintro ⟨h1, h2⟩
    have h1' : posicion + 1 - e * e ≤ g := by exact_mod_cast h1
    have h2' : g < posicion + e * e := by exact_mod_cast h2
    omega

/-- Witness for C15: the particle `(5, 2)` (`r = 4`) and the index 2, the
first one of the window `[2, 9)`. -/
theorem ventana_es_umbral_testigo :
    (energia 2 : ℝ) / Real.sqrt (|((5 : Int) : ℝ) - ((2 : Int) : ℝ)| + 1) ≥ UMBRAL ↔
      (((5 : Int) : ℝ) + 1 - 1000000 * (energia 2 * energia 2) ≤ ((2 : Int) : ℝ) ∧
        ((2 : Int) : ℝ) < ((5 : Int) : ℝ) + 1000000 * (energia 2 * energia 2)) :=
  ventana_es_umbral 5 2 2 (by decide)

end Ventana

/-! ## The deposit loop in binary32 -/

section DepositoBinary32

end DepositoBinary32

/-! ## The ends of the layer in the concrete scenario -/

section Extremos

/-- The post-bombardment layer of the scenario (`layer_size = 10`, one
worker, particle `(5, 1000)` on the zero layer). -/
theorem capa_escenario (g : Nat) (hg : g < 10) :
    (bombardeo_todos (raiz Real.sqrt) (UMBRAL : ℝ) 10 1 capas_cero [(5, 1000)] 0).miniLayer g =
      1 / Real.sqrt (|(5 : ℝ) - (g : ℝ)| + 1) := by
  have hoff : desplazamiento 10 1 0 = 0 := by decide
  have hlen : local_layer_size 10 1 0 = 10 := by decide
  unfold bombardeo_todos
  simp only []
  rw [hoff, hlen, bombardeo_escenario _ g hg]
  simp [capas_cero]

/-- C19, as the code has it. In the scenario the blast radius `10^6` covers
the whole layer: after bombardment the cells 0 and 9 hold `1/sqrt(6)` and
`1/sqrt(5)`, and the relaxation pass keeps those values. -/
theorem extremos_escenario :
    (bombardeo_todos (raiz Real.sqrt) (UMBRAL : ℝ) 10 1 capas_cero [(5, 1000)] 0).miniLayer 0 =
      1 / Real.sqrt 6 ∧
    (bombardeo_todos (raiz Real.sqrt) (UMBRAL : ℝ) 10 1 capas_cero [(5, 1000)] 0).miniLayer 9 =
      1 / Real.sqrt 5 ∧
    (tormenta (raiz Real.sqrt) (UMBRAL : ℝ) 10 1 capas_cero [(5, 1000)] 0).miniLayer 0 =
      1 / Real.sqrt 6 ∧
    (tormenta (raiz Real.sqrt) (UMBRAL : ℝ) 10 1 capas_cero [(5, 1000)] 0).miniLayer 9 =
      1 / Real.sqrt 5 := by
  have hlen : local_layer_size 10 1 0 = 10 := by decide
  have h0 : (bombardeo_todos (raiz Real.sqrt) (UMBRAL : ℝ) 10 1 capas_cero [(5, 1000)]
      0).miniLayer 0 = 1 / Real.sqrt 6 := by
    rw [capa_escenario 0 (by decide)]
    norm_num
  have h9 : (bombardeo_todos (raiz Real.sqrt) (UMBRAL : ℝ) 10 1 capas_cero [(5, 1000)]
      0).miniLayer 9 = 1 / Real.sqrt 5 := by
    rw [capa_escenario 9 (by decide)]
    norm_num
  refine ⟨h0, h9, ?_, ?_⟩
  · unfold tormenta relaja_todos
    rw [relaja_eq_spec _ _ _ _ _ _ _ (by rw [hlen]; decide)]
    unfold relajacion_spec
    rw [if_pos ⟨rfl, rfl⟩, h0]
  · unfold tormenta relaja_todos
    rw [relaja_eq_spec _ _ _ _ _ _ _ (by rw [hlen]; decide)]
    unfold relajacion_spec
    rw [hlen, if_neg (by decide), if_pos ⟨rfl, rfl⟩, h9]

/-- C19 as stated fails: after bombardment the cells 0 and 9 of the scenario
are greater than 0, not zero. -/
theorem extremos_no_nulos :
    (bombardeo_todos (raiz Real.sqrt) (UMBRAL : ℝ) 10 1 capas_cero [(5, 1000)] 0).miniLayer 0 ≠ 0 ∧
    (bombardeo_todos (raiz Real.sqrt) (UMBRAL : ℝ) 10 1 capas_cero [(5, 1000)] 0).miniLayer 9 ≠ 0 := by
  constructor
  · rw [capa_escenario 0 (by decide)]
    positivity
  · rw [capa_escenario 9 (by decide)]
    positivity

end Extremos

/-! ## The requests of the halo exchange -/

section Peticiones

/-- C20 on worker 1 of two (any storm). The worker issues the send (step 0)
and the receive (step 1) for its left neighbour, both writing `inicioR`, so
the handle of the send is replaced by the one of the receive; the single wait
on `inicioR` after the swap completes the receive only, and the send has not
been waited on when the relaxation starts. -/
theorem envio_sin_espera :
    traza_halo 1 2 =
      [Paso.isend 0 Peticion.inicioR, Paso.irecv 0 Peticion.inicioR, Paso.intercambio,
        Paso.wait Peticion.inicioR, Paso.relajacion] ∧
    emitidas (traza_halo 1 2) 0 = [0, 1] ∧
    completadas (traza_halo 1 2) 0 (fun _ => none) = [1] ∧
    0 ∉ completadas (traza_halo 1 2) 0 (fun _ => none) := by
  decide

/-- The same on a worker with two neighbours (worker 1 of three): of the four
operations issued, only the two receives (steps 1 and 3) are completed. -/
theorem envios_sin_espera_dos_vecinos :
    emitidas (traza_halo 1 3) 0 = [0, 1, 2, 3] ∧
    completadas (traza_halo 1 3) 0 (fun _ => none) = [1, 3] := by
  decide

/-- On every worker with a left neighbour, the send of line 236 (step 0 of
the trace) is issued and is not completed before the relaxation starts. -/
theorem envio_izquierdo_sin_espera (rank size : Nat) (h0 : rank ≠ 0) :
    0 ∈ emitidas (traza_halo rank size) 0 ∧
    0 ∉ completadas (traza_halo rank size) 0 (fun _ => none) := by
  by_cases hl : rank = size - 1
  · have e : traza_halo rank size =
        [Paso.isend (rank - 1) Peticion.inicioR, Paso.irecv (rank - 1) Peticion.inicioR,
          Paso.intercambio, Paso.wait Peticion.inicioR, Paso.relajacion] := by
      unfold traza_halo
      rw [if_pos h0, if_neg (not_not.mpr hl), if_pos h0, if_neg (not_not.mpr hl)]
      rfl
    rw [e]
    simp [emitidas, completadas]
  · have e : traza_halo rank size =
        [Paso.isend (rank - 1) Peticion.inicioR, Paso.irecv (rank - 1) Peticion.inicioR,
          Paso.isend (rank + 1) Peticion.finR, Paso.irecv (rank + 1) Peticion.finR,
          Paso.intercambio, Paso.wait Peticion.inicioR, Paso.wait Peticion.finR,
          Paso.relajacion] := by
      unfold traza_halo
      rw [if_pos h0, if_pos hl, if_pos h0, if_pos hl]
      rfl
    rw [e]
    simp [emitidas, completadas, Function.update_apply]

end Peticiones

/-! ## Non-negativity -/

section NoNegativo

variable {α : Type} [LinearOrderedField α]

theorem update_nonneg (f : Nat → α) (a : Nat) (v : α) (j : Nat) (hf : ∀ i, 0 ≤ f i)
    (hv : 0 ≤ v) : 0 ≤ Function.update f a v j := by
  rw [Function.update_apply]
  split_ifs
  · exact hv
  · exact hf j

theorem promedio_nonneg (a b c : α) (ha : 0 ≤ a) (hb : 0 ≤ b) (hc : 0 ≤ c) :
    0 ≤ (a + b + c) / 3 :=
  div_nonneg (add_nonneg (add_nonneg ha hb) hc) (by norm_num)

/-- The relaxation keeps both buffers non-negative. -/
theorem relaja_nonneg (rank size len : Nat) (ini fin : α) (c : Capas α)
    (hc : ∀ j, 0 ≤ c.miniLayer j) (hs : ∀ j, 0 ≤ c.layer_copy j) (hini : 0 ≤ ini)
    (hfin : 0 ≤ fin) :
    (∀ j, 0 ≤ (relaja rank size len ini fin c).miniLayer j) ∧
    (∀ j, 0 ≤ (relaja rank size len ini fin c).layer_copy j) := by
  refine ⟨?_, hc⟩
  intro j
  unfold relaja
  simp only []
  rw [foldl_update_apply]
  split_ifs <;>
    repeat' first
      | exact hs _
      | exact hc _
      | exact hini
      | exact hfin
      | apply promedio_nonneg
      | apply update_nonneg
      | intro _

theorem maxloc_valor_nonneg (a b : Registro α) (ha : 0 ≤ a.valor) (hb : 0 ≤ b.valor) :
    0 ≤ (maxloc a b).valor := by
  unfold maxloc
  split_ifs <;> assumption

theorem pico_local_valor_nonneg (rank size len off : Nat) (m : Nat → α) (basura : Int) :
    0 ≤ (pico_local rank size len off m basura).valor := by
  obtain ⟨n', _, heq'⟩ := pico_local_prefijo rank size len off m basura
  rw [heq']
  rcases escaneo_inv off m { valor := 0, posicion := basura } (ini_pico rank) n' with
    ⟨heq, _⟩ | ⟨k0, _, _, hval, _, hlt, _, _⟩
  · rw [heq]
  · rw [hval]
    exact le_of_lt hlt

theorem foldl_maxloc_nonneg (l : List (Registro α)) (a : Registro α) (ha : 0 ≤ a.valor)
    (hl : ∀ b ∈ l, 0 ≤ b.valor) : 0 ≤ (l.foldl maxloc a).valor := by
  induction l generalizing a with
  | nil => exact ha
  | cons b bs ih =>
    rw [List.foldl_cons]
    exact ih _ (maxloc_valor_nonneg a b ha (hl b (List.mem_cons_self _ _)))
      (fun x hx => hl x (List.mem_cons_of_mem _ hx))

theorem reduce_maxloc_nonneg (layer_size size : Nat) (basura : Nat → Int) (st : Nat → Capas α) :
    0 ≤ (reduce_maxloc size (picos_locales layer_size size basura st)).valor := by
  unfold reduce_maxloc
  apply foldl_maxloc_nonneg
  · exact pico_local_valor_nonneg _ _ _ _ _ _
  · intro b hb
    obtain ⟨r, _, rfl⟩ := List.mem_map.mp hb
    exact pico_local_valor_nonneg _ _ _ _ _ _

end NoNegativo

section NoNegativoBombardeo

variable {α : Type} [LinearOrderedField α] [FloorRing α]

/-- With a non-negative threshold a particle never lowers a cell. -/
theorem bombardea_particula_ge (tabla : Nat → α) (umbral : α) (hu : 0 ≤ umbral)
    (off len : Nat) (m : Nat → α) (p : Int × Int) (j : Nat) :
    m j ≤ bombardea_particula tabla umbral off len m p j := by
  obtain ⟨posicion, e⟩ := p
  rw [bombardea_particula_apply]
  split_ifs with h
  · exact le_add_of_nonneg_right (le_trans hu h.2)
  · exact le_refl _

/-- With a non-negative threshold a storm never lowers a cell. -/
theorem bombardeo_ge (tabla : Nat → α) (umbral : α) (hu : 0 ≤ umbral) (off len : Nat)
    (s : Storm) (m : Nat → α) (j : Nat) : m j ≤ bombardeo tabla umbral off len m s j := by
  induction s generalizing m with
  | nil => exact le_refl _
  | cons p ps ih =>
    unfold bombardeo
    rw [List.foldl_cons]
    exact le_trans (bombardea_particula_ge tabla umbral hu off len m p j) (ih _)

/-- One storm keeps both buffers of every worker non-negative, after the
bombardment and after the relaxation. -/
theorem tormenta_nonneg (tabla : Nat → α) (umbral : α) (hu : 0 ≤ umbral)
    (layer_size size : Nat) (st : Nat → Capas α) (s : Storm)
    (hst : ∀ rank j, 0 ≤ (st rank).miniLayer j ∧ 0 ≤ (st rank).layer_copy j) :
    (∀ rank j, 0 ≤ (bombardeo_todos tabla umbral layer_size size st s rank).miniLayer j ∧
      0 ≤ (bombardeo_todos tabla umbral layer_size size st s rank).layer_copy j) ∧
    (∀ rank j, 0 ≤ (tormenta tabla umbral layer_size size st s rank).miniLayer j ∧
      0 ≤ (tormenta tabla umbral layer_size size st s rank).layer_copy j) := by
  have hb : ∀ rank j,
      0 ≤ (bombardeo_todos tabla umbral layer_size size st s rank).miniLayer j ∧
      0 ≤ (bombardeo_todos tabla umbral layer_size size st s rank).layer_copy j := by
    intro rank j
    exact ⟨le_trans (hst rank j).1 (bombardeo_ge tabla umbral hu _ _ s _ j), (hst rank j).2⟩
  refine ⟨hb, ?_⟩
  intro rank j
  have hini : 0 ≤ halo_ini layer_size size
      (fun r => (bombardeo_todos tabla umbral layer_size size st s r).miniLayer) rank := by
    unfold halo_ini
    split_ifs
    · exact (hb _ _).1
    · exact le_refl _
  have hfin : 0 ≤ halo_fin size
      (fun r => (bombardeo_todos tabla umbral layer_size size st s r).miniLayer) rank := by
    unfold halo_fin
    split_ifs
    · exact (hb _ _).1
    · exact le_refl _
  have hr := relaja_nonneg rank size (local_layer_size layer_size size rank) _ _
    (bombardeo_todos tabla umbral layer_size size st s rank)
    (fun i => (hb rank i).1) (fun i => (hb rank i).2) hini hfin
  unfold tormenta relaja_todos
  exact ⟨hr.1 j, hr.2 j⟩

/-- Every state reached from the zero layer is non-negative. -/
theorem estado_tras_nonneg (tabla : Nat → α) (umbral : α) (hu : 0 ≤ umbral)
    (layer_size size : Nat) (storms : List Storm) (rank j : Nat) :
    0 ≤ (estado_tras tabla umbral layer_size size storms rank).miniLayer j ∧
    0 ≤ (estado_tras tabla umbral layer_size size storms rank).layer_copy j := by
  have hgen : ∀ (st : Nat → Capas α),
      (∀ rank j, 0 ≤ (st rank).miniLayer j ∧ 0 ≤ (st rank).layer_copy j) →
      ∀ rank j, 0 ≤ (storms.foldl (tormenta tabla umbral layer_size size) st rank).miniLayer j ∧
        0 ≤ (storms.foldl (tormenta tabla umbral layer_size size) st rank).layer_copy j := by
    induction storms with
    | nil => exact fun st hst => hst
    | cons s ss ih =>
      intro st hst
      rw [List.foldl_cons]
      exact ih _ (tormenta_nonneg tabla umbral hu layer_size size st s hst).2
  exact hgen capas_cero (fun _ _ => ⟨le_refl _, le_refl _⟩) rank j

/-- Every global peak value the kernel reports is non-negative. -/
theorem kernel_desde_nonneg (tabla : Nat → α) (umbral : α) (layer_size size : Nat)
    (basura : Nat → Nat → Int) (storms : List Storm) (i : Nat) (st : Nat → Capas α) :
    ∀ r ∈ kernel_desde tabla umbral layer_size size basura i st storms, 0 ≤ r.valor := by
  induction storms generalizing i st with
  | nil =>
    intro r hr
    simp [kernel_desde] at hr
  | cons s ss ih =>
    intro r hr
    unfold kernel_desde at hr
    rcases List.mem_cons.mp hr with h | h
    · rw [h]
      exact reduce_maxloc_nonneg _ _ _ _
    · exact ih _ _ r h

/-- The kernel on `storms ++ [s]`: the records of `storms`, then the
reduction of the local peaks of `s` on the state reached after `storms`. -/
theorem kernel_desde_append (tabla : Nat → α) (umbral : α) (layer_size size : Nat)
    (basura : Nat → Nat → Int) (storms : List Storm) (s : Storm) (i : Nat)
    (st : Nat → Capas α) :
    kernel_desde tabla umbral layer_size size basura i st (storms ++ [s]) =
      kernel_desde tabla umbral layer_size size basura i st storms ++
        [reduce_maxloc size (picos_locales layer_size size (basura (i + storms.length))
          (tormenta tabla umbral layer_size size
            (storms.foldl (tormenta tabla umbral layer_size size) st) s))] := by
  induction storms generalizing i st with
  | nil => simp [kernel_desde]
  | cons t ts ih =>
    rw [List.cons_append]
    unfold kernel_desde
    rw [ih]
    simp only [List.foldl_cons, List.length_cons, List.cons_append]
    rw [show i + 1 + ts.length = i + (ts.length + 1) by omega]

end NoNegativoBombardeo

section NoNegativoReal

/-- C17. Non-negativity: starting from the zero layer, whatever the integer
raw energies of the storms already processed and of the current one, every
cell of every worker is `≥ 0` after the bombardment and after the relaxation
of the current storm, the local peak value of every worker is `≥ 0`, and so
is every global peak value the kernel reports. -/
theorem energia_no_negativa (layer_size size : Nat) (basura : Nat → Nat → Int)
    (storms : List Storm) (s : Storm) (rank k : Nat) :
    0 ≤ (bombardeo_todos (raiz Real.sqrt) (UMBRAL : ℝ) layer_size size
      (estado_tras (raiz Real.sqrt) UMBRAL layer_size size storms) s rank).miniLayer k ∧
    0 ≤ (tormenta (raiz Real.sqrt) (UMBRAL : ℝ) layer_size size
      (estado_tras (raiz Real.sqrt) UMBRAL layer_size size storms) s rank).miniLayer k ∧
    0 ≤ (picos_locales layer_size size (basura storms.length)
      (tormenta (raiz Real.sqrt) (UMBRAL : ℝ) layer_size size
        (estado_tras (raiz Real.sqrt) UMBRAL layer_size size storms) s) rank).valor ∧
    (∀ r ∈ kernel (raiz Real.sqrt) (UMBRAL : ℝ) layer_size size basura (storms ++ [s]),
      0 ≤ r.valor) ∧
    kernel (raiz Real.sqrt) (UMBRAL : ℝ) layer_size size basura (storms ++ [s]) =
      kernel (raiz Real.sqrt) (UMBRAL : ℝ) layer_size size basura storms ++
        [reduce_maxloc size (picos_locales layer_size size (basura storms.length)
          (tormenta (raiz Real.sqrt) (UMBRAL : ℝ) layer_size size
            (estado_tras (raiz Real.sqrt) UMBRAL layer_size size storms) s))] := by
  have hu : (0 : ℝ) ≤ UMBRAL := by
    unfold UMBRAL
    norm_num
  have hst := estado_tras_nonneg (raiz Real.sqrt) (UMBRAL : ℝ) hu layer_size size storms
  have ht := tormenta_nonneg (raiz Real.sqrt) (UMBRAL : ℝ) hu layer_size size
    (estado_tras (raiz Real.sqrt) UMBRAL layer_size size storms) s hst
  refine ⟨(ht.1 rank k).1, (ht.2 rank k).1, ?_, ?_, ?_⟩
  · unfold picos_locales
    exact pico_local_valor_nonneg _ _ _ _ _ _
  · exact kernel_desde_nonneg _ _ _ _ _ _ _ _
  · unfold kernel estado_tras
    rw [kernel_desde_append, Nat.zero_add]

end NoNegativoReal

/-! ## Index safety -/

section Indices

end Indices

/-! ## The global peak -/

section PicoGlobal

variable {α : Type} [LinearOrderedField α]

end PicoGlobal

/-! ## The scan bound above `2^24` -/

section CotaFlotante

end CotaFlotante

end CoMPIla
